import Mathlib

/-!
Shallow embedding of the `arrt` ray tracer core (Rust) in Lean 4, together
with theorems settling the spec claims.

Modelling conventions:
* `f32` is modelled by `ℚ` (exact arithmetic; the spec's "within floating
  tolerance" becomes exact equality over `ℚ`).
* `f32::sqrt` is modelled by `ratSqrt`, which is exact on rationals whose
  numerator and denominator are perfect squares (all concrete inputs used in
  the claims are of this form).
* `f32::powf` is modelled by `powf`, exact at integer exponents; no claim
  depends on its values.
* `f32::EPSILON` is `2⁻²³` exactly, `f32::MAX` is `2¹²⁸ − 2¹⁰⁴` exactly and
  `f32::MIN = -f32::MAX`.
* Rust `Option` is Lean `Option`; struct field and function names follow the
  source where Lean allows it.
-/

namespace Arrt

/-- Exact value of `f32::EPSILON` (2⁻²³); irreducible so that definitional
unfolding never attempts rational normalization. -/
@[irreducible] def epsF32 : ℚ := 1 / 2 ^ 23

/-- Exact value of `f32::MAX` (2¹²⁸ − 2¹⁰⁴); `f32::MIN` is its negation. -/
@[irreducible] def fMAX : ℚ := 2 ^ 128 - 2 ^ 104

/-- Rational stand-in for `f32::sqrt`: exact whenever numerator and
denominator are perfect squares (the only case exercised by the claims). -/
def ratSqrt (q : ℚ) : ℚ := (Nat.sqrt q.num.toNat : ℚ) / (Nat.sqrt q.den : ℚ)

/-- Rational stand-in for `f32::powf`: uses the floor of the exponent.
Exact at nonnegative integer exponents; no claim depends on its values. -/
def powf (b e : ℚ) : ℚ := b ^ (⌊e⌋ : ℤ)

/-- `math/vec3.rs`: `Vec3 { dat: [f32; 3] }`, modelled with named fields. -/
structure Vec3 where
  x : ℚ
  y : ℚ
  z : ℚ
deriving DecidableEq, Repr

namespace Vec3

def fill (v : ℚ) : Vec3 := ⟨v, v, v⟩

def zeros : Vec3 := fill 0

/-- `Index<usize> for Vec3` (`v[i]`); only ever called with `i < 3`. -/
def nth (v : Vec3) : ℕ → ℚ
  | 0 => v.x
  | 1 => v.y
  | _ => v.z

instance : Add Vec3 := ⟨fun v u => ⟨v.x + u.x, v.y + u.y, v.z + u.z⟩⟩
instance : Sub Vec3 := ⟨fun v u => ⟨v.x - u.x, v.y - u.y, v.z - u.z⟩⟩
instance : Neg Vec3 := ⟨fun v => ⟨-v.x, -v.y, -v.z⟩⟩
instance : Mul Vec3 := ⟨fun v u => ⟨v.x * u.x, v.y * u.y, v.z * u.z⟩⟩
instance : HMul ℚ Vec3 Vec3 := ⟨fun f v => ⟨f * v.x, f * v.y, f * v.z⟩⟩
instance : HMul Vec3 ℚ Vec3 := ⟨fun v f => ⟨v.x * f, v.y * f, v.z * f⟩⟩
instance : HDiv Vec3 ℚ Vec3 := ⟨fun v f => v * (1 / f)⟩
instance : HSub Vec3 ℚ Vec3 := ⟨fun v f => ⟨v.x - f, v.y - f, v.z - f⟩⟩
instance : HAdd Vec3 ℚ Vec3 := ⟨fun v f => ⟨v.x + f, v.y + f, v.z + f⟩⟩

end Vec3

def sum (v : Vec3) : ℚ := v.x + v.y + v.z

def square (v : Vec3) : Vec3 := v * v

def length (v : Vec3) : ℚ := ratSqrt (sum (square v))

/-- `normalize`; per the spec it is undefined (NaN) on the zero vector, here
it returns `0` there (division by zero in `ℚ`). -/
def normalize (v : Vec3) : Vec3 := v / length v

def dot (v u : Vec3) : ℚ := sum (v * u)

def reflect (v n : Vec3) : Vec3 := normalize ((2 * dot n v) * n - v)

/-- `math/vec3.rs` `refract`: `None` signals total internal reflection. -/
def refract (v n : Vec3) (cos_theta_i eta : ℚ) : Option Vec3 :=
  let f := 1 - (1 - cos_theta_i * cos_theta_i) / (eta * eta)
  if f ≥ 0 then some (normalize (-v / eta - (ratSqrt f - cos_theta_i / eta) * n))
  else none

/-- `math/ray.rs`: origin, direction, recursion depth. -/
structure Ray where
  origin : Vec3
  direction : Vec3
  depth : ℕ
deriving DecidableEq, Repr

def Ray.point_at (r : Ray) (t : ℚ) : Vec3 := r.origin + r.direction * t

/-- `math/range.rs`. -/
structure Range where
  min : ℚ
  max : ℚ
deriving DecidableEq, Repr

def in_range (range : Range) (f : ℚ) : Bool := f < range.max ∧ f > range.min

/-- `render/color.rs` `ColorRGB`. -/
structure ColorRGB where
  r : ℚ
  g : ℚ
  b : ℚ
deriving DecidableEq, Repr

namespace ColorRGB

def fill (v : ℚ) : ColorRGB := ⟨v, v, v⟩

def black : ColorRGB := fill 0

def clamp1 (val lo hi : ℚ) : ℚ := if val < lo then lo else if val > hi then hi else val

def clamp (c : ColorRGB) (lo hi : ℚ) : ColorRGB :=
  ⟨clamp1 c.r lo hi, clamp1 c.g lo hi, clamp1 c.b lo hi⟩

instance : Add ColorRGB := ⟨fun a b => ⟨a.r + b.r, a.g + b.g, a.b + b.b⟩⟩
instance : Sub ColorRGB := ⟨fun a b => ⟨a.r - b.r, a.g - b.g, a.b - b.b⟩⟩
instance : Mul ColorRGB := ⟨fun a b => ⟨a.r * b.r, a.g * b.g, a.b * b.b⟩⟩
instance : HMul ℚ ColorRGB ColorRGB := ⟨fun f c => ⟨f * c.r, f * c.g, f * c.b⟩⟩
instance : HMul ColorRGB ℚ ColorRGB := ⟨fun c f => ⟨c.r * f, c.g * f, c.b * f⟩⟩
instance : HDiv ColorRGB ℚ ColorRGB := ⟨fun c f => ⟨c.r / f, c.g / f, c.b / f⟩⟩

end ColorRGB

/-- `objects/aabb.rs` `nearly_zero` (irreducible: definitional unfolding of
rational comparisons is prohibitively slow for the elaborator). -/
@[irreducible] def nearly_zero (f : ℚ) : Bool := |f - 0| ≤ 2 * epsF32

/-- `objects/aabb.rs` `Aabb { min, max }`. -/
structure Aabb where
  min : Vec3
  max : Vec3
deriving DecidableEq, Repr

namespace Aabb

/-- `Aabb::maxmin`: the "empty" sentinel `min = +MAX, max = MIN`. -/
def maxmin : Aabb := ⟨Vec3.fill fMAX, Vec3.fill (-fMAX)⟩

def center (b : Aabb) : Vec3 := (b.min + b.max) / (2 : ℚ)

/-- `Aabb::merge`: componentwise min of mins, max of maxes. -/
def merge (b other : Aabb) : Aabb :=
  ⟨⟨Min.min b.min.x other.min.x, Min.min b.min.y other.min.y, Min.min b.min.z other.min.z⟩,
   ⟨Max.max b.max.x other.max.x, Max.max b.max.y other.max.y, Max.max b.max.z other.max.z⟩⟩

/-- One iteration of the slab loop in `Aabb::intersect` (axis `i`, running
interval `(t_near, t_far)`); `none` models the early `return None`. -/
def slabAxis (b : Aabb) (ray : Ray) (i : ℕ) (t_near t_far : ℚ) : Option (ℚ × ℚ) :=
  let d := ray.direction.nth i
  let o := ray.origin.nth i
  if nearly_zero d then
    if o < b.min.nth i ∨ o > b.max.nth i then none
    else some (t_near, t_far)
  else
    let f := 1 / d
    let t1 := (b.min.nth i - o) * f
    let t2 := (b.max.nth i - o) * f
    let p := if t1 > t2 then (t2, t1) else (t1, t2)
    let t_near' := Max.max p.1 t_near
    let t_far' := Min.min p.2 t_far
    if t_near' > t_far' then none
    else if t_far' < 0 then none
    else some (t_near', t_far')

/-- The three slab-loop iterations of `Aabb::intersect` chained; the
`none` of any axis short-circuits (the loop's early `return None`). -/
def slab3 (b : Aabb) (ray : Ray) (range : Range) : Option (ℚ × ℚ) :=
  (slabAxis b ray 0 range.min range.max).bind fun p =>
    (slabAxis b ray 1 p.1 p.2).bind fun q =>
      slabAxis b ray 2 q.1 q.2

/-- `Aabb::intersect` (slab method). -/
def intersect (b : Aabb) (ray : Ray) (range : Range) : Option ℚ :=
  match slab3 b ray range with
  | none => none
  | some (t_near, t_far) => if t_near < 0 then some t_far else some t_near

end Aabb

/-- `objects/material.rs` `MaterialID(usize)`. -/
def MaterialID : Type := ℕ

instance : DecidableEq MaterialID := instDecidableEqNat

instance : OfNat MaterialID n := ⟨(n : ℕ)⟩

/-- `objects/material.rs` `Surfel` (hit record). -/
structure Surfel where
  t : ℚ
  hit_point : Vec3
  normal : Vec3
  material_id : MaterialID
  n_offset : ℚ
deriving DecidableEq

/-- `objects/material.rs` `Material` (the `name` string is irrelevant to the
claims and omitted). -/
structure Material where
  ambient : ColorRGB
  diffuse : ColorRGB
  specular : ColorRGB
  transmissive : ColorRGB
  ka : ℚ
  kd : ℚ
  ks : ℚ
  kr : ℚ
  kt : ℚ
  ior : ℚ
  shininess : ℚ
  highlight : ℚ
deriving DecidableEq

/-- `Default for Material`. -/
def Material.default : Material :=
  { ambient := ColorRGB.black, diffuse := ColorRGB.black, specular := ColorRGB.black,
    transmissive := ColorRGB.black, ka := 1, kd := 1, ks := 1, kr := 0, kt := 0,
    ior := 0, shininess := 1, highlight := 0 }

/-- `objects/sphere.rs` `Sphere` (bbox `center ± radius` as in `Sphere::new`). -/
structure Sphere where
  center : Vec3
  radius : ℚ
  material_id : MaterialID

def Sphere.bbox (s : Sphere) : Aabb := ⟨s.center - s.radius, s.center + s.radius⟩

def Sphere.normal_at (s : Sphere) (point : Vec3) : Vec3 := normalize (point - s.center)

/-- The smaller quadratic root `(-b - √disc) / 2a` chosen first by
`Sphere::intersect`. -/
def Sphere.t1 (s : Sphere) (ray : Ray) : ℚ :=
  let a := dot ray.direction ray.direction
  let v := ray.origin - s.center
  let b := 2 * dot ray.direction v
  let c := dot v v - s.radius * s.radius
  let discriminant := b * b - 4 * a * c
  (-b - ratSqrt discriminant) / (2 * a)

/-- The larger quadratic root `(-b + √disc) / 2a` retried by
`Sphere::intersect` when the smaller one is negative. -/
def Sphere.t2 (s : Sphere) (ray : Ray) : ℚ :=
  let a := dot ray.direction ray.direction
  let v := ray.origin - s.center
  let b := 2 * dot ray.direction v
  let c := dot v v - s.radius * s.radius
  let discriminant := b * b - 4 * a * c
  (-b + ratSqrt discriminant) / (2 * a)

/-- The discriminant computed by `Sphere::intersect`. -/
def Sphere.disc (s : Sphere) (ray : Ray) : ℚ :=
  let a := dot ray.direction ray.direction
  let v := ray.origin - s.center
  let b := 2 * dot ray.direction v
  let c := dot v v - s.radius * s.radius
  b * b - 4 * a * c

/-- `Sphere::intersect`. The Rust `Surfel` literal there omits the
`n_offset` field (it does not name it at all); it is modelled as `0` here —
no claim about spheres depends on it. -/
def Sphere.intersect (s : Sphere) (ray : Ray) (range : Range) : Option Surfel :=
  if s.disc ray < 0 then none
  else
    let t := if s.t1 ray < 0 then s.t2 ray else s.t1 ray
    if t < 0 then none
    else if in_range range t then
      let hit_point := ray.point_at t
      let normal := s.normal_at hit_point
      some { t := t, hit_point := hit_point, normal := normal,
             material_id := s.material_id, n_offset := 0 }
    else none

/-- `math/mat3.rs` `Mat3` (row-major 3×3). -/
structure Mat3 where
  m00 : ℚ
  m01 : ℚ
  m02 : ℚ
  m10 : ℚ
  m11 : ℚ
  m12 : ℚ
  m20 : ℚ
  m21 : ℚ
  m22 : ℚ

/-- `math/mat3.rs` `determinant` (cofactor expansion along the first row). -/
def determinant (m : Mat3) : ℚ :=
  m.m00 * (m.m11 * m.m22 - m.m12 * m.m21) -
  m.m01 * (m.m10 * m.m22 - m.m12 * m.m20) +
  m.m02 * (m.m10 * m.m21 - m.m11 * m.m20)

/-- `objects/mesh.rs` `Triangle` (indices into shared vertex/normal buffers). -/
structure Triangle where
  i : ℕ
  j : ℕ
  k : ℕ

/-- `Triangle::intersect` (Cramer's rule, barycentric rejection with
`spf = 1e-6`). Note the source sets `material_id = MaterialID(0)` and
`n_offset = 0.0` — both placeholders overwritten at the `Instance` level. -/
def Triangle.intersect (tri : Triangle) (ray : Ray) (range : Range)
    (vertices normals : List Vec3) : Option Surfel :=
  let v0 := vertices.getD tri.i Vec3.zeros
  let v1 := vertices.getD tri.j Vec3.zeros
  let v2 := vertices.getD tri.k Vec3.zeros
  let a := v0.x - v1.x
  let b := v0.x - v2.x
  let c := ray.direction.x
  let d := v0.x - ray.origin.x
  let e := v0.y - v1.y
  let f := v0.y - v2.y
  let g := ray.direction.y
  let h := v0.y - ray.origin.y
  let i := v0.z - v1.z
  let j := v0.z - v2.z
  let k := ray.direction.z
  let l := v0.z - ray.origin.z
  let A : Mat3 := ⟨a, b, c, e, f, g, i, j, k⟩
  let B : Mat3 := ⟨d, b, c, h, f, g, l, j, k⟩
  let Y : Mat3 := ⟨a, d, c, e, h, g, i, l, k⟩
  let T : Mat3 := ⟨a, b, d, e, f, h, i, j, l⟩
  let denom := 1 / determinant A
  let beta := determinant B * denom
  let spf : ℚ := 1e-6
  if beta < spf then none
  else
    let gamma := determinant Y * denom
    if gamma < spf then none
    else if beta + gamma > 1 then none
    else
      let t := determinant T * denom
      if ¬ in_range range t then none
      else
        let hit_point := ray.point_at t
        let alpha := Max.max (1 - beta - gamma) 0
        let normal := normalize (alpha * normals.getD tri.i Vec3.zeros +
                      beta * normals.getD tri.j Vec3.zeros +
                      gamma * normals.getD tri.k Vec3.zeros)
        some { t := t, hit_point := hit_point, normal := normal,
               material_id := (0 : MaterialID), n_offset := 0 }

/-- `objects/mesh.rs` `Mesh` (bbox as computed by the loader). -/
structure Mesh where
  vertices : List Vec3
  triangles : List Triangle
  normals : List Vec3
  bbox : Aabb

/-- The loop body of `Mesh::intersect`: scan triangles, narrowing
`t_range.max` to the best hit found so far. -/
def meshScan (ray : Ray) (vertices normals : List Vec3) :
    List Triangle → Range → Option Surfel → Option Surfel
  | [], _, surfel => surfel
  | tri :: rest, t_range, surfel =>
    match tri.intersect ray t_range vertices normals with
    | some surf => meshScan ray vertices normals rest { t_range with max := surf.t } (some surf)
    | none => meshScan ray vertices normals rest t_range surfel

/-- `Mesh::intersect`. -/
def Mesh.intersect (m : Mesh) (ray : Ray) (range : Range) : Option Surfel :=
  meshScan ray m.vertices m.normals m.triangles range none

/-- `math/vec4.rs` `Vec4`. -/
structure Vec4 where
  x : ℚ
  y : ℚ
  z : ℚ
  w : ℚ

def Vec4.from_vec3 (v : Vec3) (w : ℚ) : Vec4 := ⟨v.x, v.y, v.z, w⟩

def Vec4.to_vec3 (v : Vec4) : Vec3 := ⟨v.x, v.y, v.z⟩

/-- `math/mat4.rs` `Mat4` (row-major 4×4). -/
structure Mat4 where
  r0 : Vec4
  r1 : Vec4
  r2 : Vec4
  r3 : Vec4

def Mat4.identity : Mat4 :=
  ⟨⟨1, 0, 0, 0⟩, ⟨0, 1, 0, 0⟩, ⟨0, 0, 1, 0⟩, ⟨0, 0, 0, 1⟩⟩

/-- `Mat4::transpose`. -/
def Mat4.transpose (m : Mat4) : Mat4 :=
  ⟨⟨m.r0.x, m.r1.x, m.r2.x, m.r3.x⟩,
   ⟨m.r0.y, m.r1.y, m.r2.y, m.r3.y⟩,
   ⟨m.r0.z, m.r1.z, m.r2.z, m.r3.z⟩,
   ⟨m.r0.w, m.r1.w, m.r2.w, m.r3.w⟩⟩

/-- `Mul<Vec4> for &Mat4`. -/
def Mat4.mulVec (m : Mat4) (v : Vec4) : Vec4 :=
  ⟨m.r0.x * v.x + m.r0.y * v.y + m.r0.z * v.z + m.r0.w * v.w,
   m.r1.x * v.x + m.r1.y * v.y + m.r1.z * v.z + m.r1.w * v.w,
   m.r2.x * v.x + m.r2.y * v.y + m.r2.z * v.z + m.r2.w * v.w,
   m.r3.x * v.x + m.r3.y * v.y + m.r3.z * v.z + m.r3.w * v.w⟩

/-- `objects/mesh.rs` `Instance`: a shared mesh plus forward and inverse
transforms. -/
structure Instance where
  model : Mesh
  material_id : MaterialID
  bbox : Aabb
  transform : Mat4
  inverse : Mat4

/-- `Instance::intersect`: intersect in object space, map the hit point back,
recompute `t` from the X components, map the normal by the inverse
transpose, and stamp `n_offset = 1e-10`. (The Rust literal `0.0000000001`
is the nearest `f32` to 1e-10; only its strict positivity matters here.) -/
def Instance.intersect (inst : Instance) (ray : Ray) (range : Range) : Option Surfel :=
  let o := (inst.inverse.mulVec (Vec4.from_vec3 ray.origin 1)).to_vec3
  let d := (inst.inverse.mulVec (Vec4.from_vec3 ray.direction 0)).to_vec3
  let r : Ray := ⟨o, normalize d, ray.depth⟩
  match inst.model.intersect r range with
  | some surf =>
    let hit_point := (inst.transform.mulVec (Vec4.from_vec3 surf.hit_point 1)).to_vec3
    let t := (hit_point - ray.origin).x / ray.direction.x
    let it := inst.inverse.transpose
    let normal := normalize (it.mulVec (Vec4.from_vec3 surf.normal 0)).to_vec3
    some { t := t, hit_point := hit_point, normal := normal,
           material_id := inst.material_id, n_offset := 1 / 10 ^ 10 }
  | none => none

/-- `lights/light.rs` trait `Light`, modelled as a record of its methods
(the concrete `PointLight`/`SpotLight` impls only differ in these four). -/
structure Light where
  direction_from : Vec3 → Vec3
  intensity_at : Vec3 → ℚ
  diffuse : ColorRGB
  specular : ColorRGB

/-- The trait object `dyn Object` as consumed by the BVH and the tracer,
modelled by its observable behaviour: `bbox`, `centroid`, and the candidate
hit `best ray min`. This captures the `intersect` impls that test the `t`
they return directly against the range (`Sphere`, and `Triangle`/`Mesh`
via the narrowing scan): `best` computes the candidate (already filtered
against `range.min`) and `AObj.intersect` applies the `range.max` filter;
`sphere_toAObj_intersect` proves `Sphere::intersect` is of this shape.
`Instance::intersect` (mesh.rs) is *not* of this shape — it accepts a hit
by testing the object-space `t` against the range but returns a recomputed
world-space `t`; it is embedded separately as `Instance.intersect`. -/
structure AObj where
  bbox : Aabb
  centroid : Vec3
  best : Ray → ℚ → Option Surfel

/-- `Object::intersect` for an abstract object (see `AObj`). -/
def AObj.intersect (o : AObj) (ray : Ray) (range : Range) : Option Surfel :=
  match o.best ray range.min with
  | some s => if s.t < range.max then some s else none
  | none => none

/-- `Sphere` viewed as an abstract object. -/
def Sphere.toAObj (s : Sphere) : AObj :=
  { bbox := s.bbox
    centroid := s.center
    best := fun ray m =>
      if s.disc ray < 0 then none
      else
        let t := if s.t1 ray < 0 then s.t2 ray else s.t1 ray
        if t < 0 then none
        else if t > m then
          some { t := t, hit_point := ray.point_at t, normal := s.normal_at (ray.point_at t),
                 material_id := s.material_id, n_offset := 0 }
        else none }

/-- The nearest-hit scan shared by `RayTracer::trace_ray`, `Mesh::intersect`
and the BVH leaf loop: test objects in order, narrowing `range.max` to each
accepted hit's `t`. -/
def scanObjects (ray : Ray) : List AObj → Range → Option Surfel → Option Surfel
  | [], _, surfel => surfel
  | o :: rest, range, surfel =>
    match o.intersect ray range with
    | some surf => scanObjects ray rest { range with max := surf.t } (some surf)
    | none => scanObjects ray rest range surfel

/-- `render/tracer.rs` `RayTracer` together with the pieces of `Scene` and
`Camera` that `shade` consumes (`lights`, `ambient`, `bgcolor`, material
table, `camera.eye`). -/
structure RayTracer where
  objects : List AObj
  lights : List Light
  materials : List Material
  ambient : ColorRGB
  bgcolor : ColorRGB
  eye : Vec3

/-- `Scene::material_for_surfel` (vector lookup by `MaterialID`). -/
def material_for_surfel (tr : RayTracer) (surf : Surfel) : Material :=
  tr.materials.getD surf.material_id Material.default

/-- `RayTracer::trace_ray`: linear scan of the object list with the fixed
primary range `[0.025, f32::MAX]`. -/
def trace_ray (tr : RayTracer) (ray : Ray) : Option Surfel :=
  scanObjects ray tr.objects ⟨0.025, fMAX⟩ none

/-- `max_depth` from `RayTracer::sample_ray`. -/
def max_depth : ℕ := 5

/-- The loop of `RayTracer::shadow_intensity`: each object is tested once;
a transmissive hit (`kt > 0`) halves the intensity and advances `range.min`
past the occluder, an opaque one returns `0` immediately. -/
def shadowScan (tr : RayTracer) (ray : Ray) : List AObj → Range → ℚ → ℚ
  | [], _, intensity => intensity
  | o :: rest, range, intensity =>
    match o.intersect ray range with
    | some surf =>
      if (material_for_surfel tr surf).kt > 0 then
        shadowScan tr ray rest { range with min := surf.t } (intensity * 0.5)
      else 0
    | none => shadowScan tr ray rest range intensity

/-- `RayTracer::shadow_intensity` (initial range `[0.001, f32::MAX]`). -/
def shadow_intensity (tr : RayTracer) (ray : Ray) (light_intensity : ℚ) : ℚ :=
  shadowScan tr ray tr.objects ⟨0.001, fMAX⟩ light_intensity

/-- The per-light loop of `RayTracer::shade`: accumulates the local
diffuse + specular color and the `visible_lights` list, applying
`shadow_intensity` when the surface faces the light. -/
def shadeLights (tr : RayTracer) (surfel : Surfel) (material : Material)
    (n v : Vec3) (curr_depth : ℕ) : ColorRGB × List Light :=
  tr.lights.foldl (fun acc light =>
    let l := normalize (light.direction_from surfel.hit_point)
    let intensity0 := light.intensity_at l
    let intensity :=
      if dot n l > 0 then
        shadow_intensity tr ⟨surfel.hit_point + (0.01 : ℚ) * n, l, curr_depth⟩ intensity0
      else intensity0
    if intensity = 0 then acc
    else
      let n_dot_l := Max.max (dot n l) 0
      let h := normalize (l + v)
      let n_dot_h := Max.max (dot n h) 0
      let e := powf n_dot_h material.shininess
      let diffuse := intensity * light.diffuse * material.kd * material.diffuse * n_dot_l
      let specular := intensity * light.specular * material.ks * material.specular * e
      (acc.1 + (diffuse + specular), acc.2 ++ [light]))
    (ColorRGB.black, [])

/-- The specular-highlight loop over `visible_lights` along the transmitted
direction (inside the successful-refraction branch of `shade`). -/
def transmittedHighlights (surfel : Surfel) (material : Material) (t : Vec3)
    (visible : List Light) : ColorRGB :=
  visible.foldl (fun acc light =>
    let l := normalize (light.direction_from surfel.hit_point)
    let cos_alpha := Max.max (dot t l) 0
    let f := powf cos_alpha material.highlight
    let il := light.intensity_at l
    acc + material.kt * il * light.specular * material.transmissive * f)
    ColorRGB.black

/-- The refraction block of `RayTracer::shade`: flip the normal and invert
the index ratio when exiting, then either trace the transmitted ray or, on
total internal reflection, an internally reflected ray (`reflect v n`). -/
def refractionColor (recur : Ray → ColorRGB × Bool) (surfel : Surfel)
    (material : Material) (curr_depth : ℕ) (n v : Vec3) (visible : List Light)
    (color : ColorRGB) : ColorRGB :=
  if material.kt > 0 then
    let cos0 := dot n v
    let cos_theta_i := if cos0 < 0 then -cos0 else cos0
    let n1 := if cos0 < 0 then normalize (-n) else n
    let eta := if cos0 < 0 then 1 / material.ior else material.ior
    match refract v n1 cos_theta_i eta with
    | some t =>
      let transmitted : Ray := ⟨surfel.hit_point + surfel.n_offset * n1, t, curr_depth + 1⟩
      let it := (recur transmitted).1
      color + material.kt * it * material.transmissive +
        transmittedHighlights surfel material t visible
    | none =>
      let r := reflect v n1
      let ray : Ray := ⟨surfel.hit_point + surfel.n_offset * n1, r, curr_depth + 1⟩
      let it := (recur ray).1
      color + material.kt * it * material.transmissive
  else color

/-- `RayTracer::shade` with the recursive `sample_ray` call abstracted as
`recur` (the source's mutual recursion is tied below in `sample_rayFuel`).
Every secondary ray is spawned with `curr_depth + 1`. -/
def shadeCore (recur : Ray → ColorRGB × Bool) (tr : RayTracer) (surfel : Surfel)
    (material : Material) (curr_depth : ℕ) : ColorRGB :=
  let n := normalize surfel.normal
  let v := normalize (tr.eye - surfel.hit_point)
  let lp := shadeLights tr surfel material n v curr_depth
  let color0 := lp.1
  let color1 :=
    if material.kr > 0 then
      let reflected : Ray := ⟨surfel.hit_point + surfel.n_offset * n, reflect v n, curr_depth + 1⟩
      color0 + material.kr * (recur reflected).1 * material.specular
    else color0
  let color2 := refractionColor recur surfel material curr_depth n v lp.2 color1
  let color3 := color2 + tr.ambient * material.ka * material.ambient
  color3.clamp 0 1

/-- `RayTracer::sample_ray` as a fuel-indexed structural recursion; the
depth guard `ray.depth > max_depth` returns black before any shading.
`sample_ray` below instantiates the fuel with `max_depth + 2 - ray.depth`,
and the stability theorem for claim C2 shows any fuel of at least that much
computes the same value (the recursion is depth-limited). -/
def sample_rayFuel : ℕ → RayTracer → Ray → ColorRGB × Bool
  | 0, _, _ => (ColorRGB.black, false)
  | fuel + 1, tr, ray =>
    let surfel := trace_ray tr ray
    if ray.depth > max_depth then (ColorRGB.black, false)
    else
      match surfel with
      | some surf =>
        (shadeCore (fun r => sample_rayFuel fuel tr r) tr surf
          (material_for_surfel tr surf) ray.depth, true)
      | none => (tr.bgcolor, false)

/-- `RayTracer::sample_ray`. -/
def sample_ray (tr : RayTracer) (ray : Ray) : ColorRGB × Bool :=
  sample_rayFuel (max_depth + 2 - ray.depth) tr ray

/-- `RayTracer::shade` proper (recursing into `sample_ray`). -/
def shade (tr : RayTracer) (surfel : Surfel) (material : Material)
    (curr_depth : ℕ) : ColorRGB :=
  shadeCore (fun r => sample_ray tr r) tr surfel material curr_depth

/-- The comparator of `Bvh::new`'s `sort_unstable_by` (`centroid_cmp`):
order by the centroid coordinate along `axis`. -/
def centroid_le (axis : ℕ) (a b : AObj) : Bool :=
  a.centroid.nth axis ≤ b.centroid.nth axis

/-- `objects/bvh.rs` `Bvh`: a leaf stores the (≤ 1 in practice) objects and
their merged bbox; an internal node stores two children and their merged
bbox. -/
inductive Bvh where
  | leaf (objects : List AObj) (bbox : Aabb)
  | node (left right : Bvh) (bbox : Aabb)

def Bvh.bbox : Bvh → Aabb
  | .leaf _ b => b
  | .node _ _ b => b

/-- `objects/bvh.rs` `compute_bbox`: fold `merge` from the `maxmin`
sentinel. -/
def compute_bbox (objects : List AObj) : Aabb :=
  objects.foldl (fun bbox o => bbox.merge o.bbox) Aabb.maxmin

/-- `Bvh::new`: sort by centroid along `axis`, leaf at ≤ 1 objects, else
split at the median index and recurse with the next axis round-robin. -/
def Bvh.new (objects : List AObj) (axis : ℕ) : Bvh :=
  if (objects.mergeSort (centroid_le axis)).length ≤ 1 then
    .leaf (objects.mergeSort (centroid_le axis))
      (compute_bbox (objects.mergeSort (centroid_le axis)))
  else
    let next_axis := (axis + 1) % 3
    let mid := (objects.mergeSort (centroid_le axis)).length / 2
    let left := Bvh.new ((objects.mergeSort (centroid_le axis)).take mid) next_axis
    let right := Bvh.new ((objects.mergeSort (centroid_le axis)).drop mid) next_axis
    .node left right (left.bbox.merge right.bbox)
termination_by objects.length
decreasing_by
  · simp only [List.length_take, List.length_mergeSort] at *
    omega
  · simp only [List.length_drop, List.length_mergeSort] at *
    omega

/-- `Bvh::intersect`: prune on the node bbox; on a leaf run the nearest-hit
scan; on an internal node recurse into both children with the *original*
range and keep the smaller `t`, ties favoring the left child. -/
def Bvh.intersect : Bvh → Ray → Range → Option Surfel
  | .leaf objects bbox, ray, range =>
    if (bbox.intersect ray range).isSome then scanObjects ray objects range none
    else none
  | .node left right bbox, ray, range =>
    if (bbox.intersect ray range).isSome then
      match left.intersect ray range, right.intersect ray range with
      | some l_surf, some r_surf => if l_surf.t ≤ r_surf.t then some l_surf else some r_surf
      | some surf, none => some surf
      | none, some surf => some surf
      | none, none => none
    else none

/-- The brute-force linear scan over all objects with a caller-supplied
range (the loop of `RayTracer::trace_ray`, range generalized). -/
def linear_scan (objects : List AObj) (ray : Ray) (range : Range) : Option Surfel :=
  scanObjects ray objects range none

/-- `slice::chunks` with chunk size `n` (the shape behind
`par_chunks_mut`); `n = 0` never occurs (`Framebuffer::new` asserts
positive dimensions). -/
def chunksOf : ℕ → List ColorRGB → List (List ColorRGB)
  | _, [] => []
  | 0, _ :: _ => []
  | n + 1, x :: xs => (x :: xs).take (n + 1) :: chunksOf (n + 1) ((x :: xs).drop (n + 1))
termination_by _ l => l.length
decreasing_by
  simp only [List.drop, List.length_cons, List.length_drop]
  omega

/-- The inner row loop of `render_scene`'s antialiasing pass: write
`sample j k` into each slot, stopping (`break`) at `j == width - 1`; the
per-pixel sampling itself (`Pixel::sample`) enters only through the
abstract `sample` argument. -/
def rowWrite (sample : ℕ → ℕ → ColorRGB) (width : ℕ) (k : ℕ) :
    ℕ → List ColorRGB → List ColorRGB
  | _, [] => []
  | j, c :: rest =>
    if j = width - 1 then c :: rest
    else sample j k :: rowWrite sample width k (j + 1) rest

/-- The antialiasing pass of `render_scene`: a fresh black framebuffer
`fb2`, `par_chunks_mut(fb.height)` (chunks of `height` consecutive slots),
`.skip(1)` (first chunk untouched), and per remaining chunk `k` the row
loop writing pixels `Pixel::new(j, k + 1)`. Returns `fb2`'s flat data
(row-major, index `k * width + j` per `Framebuffer::set_color`). -/
def render_pass2 (sample : ℕ → ℕ → ColorRGB) (width height : ℕ) : List ColorRGB :=
  let data := List.replicate (width * height) ColorRGB.black
  match chunksOf height data with
  | [] => []
  | first :: rest =>
    first ++ (rest.enum.map (fun p => rowWrite sample width (p.1 + 1) 0 p.2)).flatten
/-- Parallel-axis rejection in the slab loop: a nearly-zero direction
component with the origin outside that axis's slab returns `None`. -/
theorem slabAxis_parallel_outside {b : Aabb} {ray : Ray} {i : ℕ} (tn tf : ℚ)
    (hz : nearly_zero (ray.direction.nth i))
    (ho : ray.origin.nth i < b.min.nth i ∨ ray.origin.nth i > b.max.nth i) :
    Aabb.slabAxis b ray i tn tf = none := by
  unfold Aabb.slabAxis
  rw [if_pos hz, if_pos ho]

/-- C7: `Aabb::merge` is commutative, and the `maxmin` sentinel is a merge
identity on any box whose components lie within `[f32::MIN, f32::MAX]`. -/
theorem merge_comm_and_maxmin_id (A B : Aabb)
    (h1 : A.min.x ≤ fMAX) (h2 : A.min.y ≤ fMAX) (h3 : A.min.z ≤ fMAX)
    (h4 : -fMAX ≤ A.max.x) (h5 : -fMAX ≤ A.max.y) (h6 : -fMAX ≤ A.max.z) :
    A.merge B = B.merge A ∧ A.merge Aabb.maxmin = A := by
  constructor
  · simp [Aabb.merge, Aabb.mk.injEq, Vec3.mk.injEq, min_comm, max_comm]
  · simp [Aabb.merge, Aabb.maxmin, Vec3.fill, Aabb.mk.injEq, Vec3.mk.injEq,
      min_eq_left, max_eq_left, h1, h2, h3, h4, h5, h6]

/-- Witness for C7 at concrete boxes. -/
theorem merge_comm_and_maxmin_id_witness :
    Aabb.merge ⟨⟨0, 0, 0⟩, ⟨1, 1, 1⟩⟩ ⟨⟨-1, 2, 0⟩, ⟨3, 4, 5⟩⟩ =
      Aabb.merge ⟨⟨-1, 2, 0⟩, ⟨3, 4, 5⟩⟩ ⟨⟨0, 0, 0⟩, ⟨1, 1, 1⟩⟩ ∧
    Aabb.merge ⟨⟨0, 0, 0⟩, ⟨1, 1, 1⟩⟩ Aabb.maxmin = ⟨⟨0, 0, 0⟩, ⟨1, 1, 1⟩⟩ := by
  refine merge_comm_and_maxmin_id _ _ ?_ ?_ ?_ ?_ ?_ ?_ <;> norm_num [fMAX]
/-- Evaluation helper for `ratSqrt` at perfect squares. -/
theorem ratSqrt_eq (q : ℚ) (a b : ℕ) (h1 : q.num.toNat = a * a) (h2 : q.den = b * b) :
    ratSqrt q = (a : ℚ) / b := by
  unfold ratSqrt
  rw [h1, h2, Nat.sqrt_eq, Nat.sqrt_eq]

theorem ratSqrt_one : ratSqrt 1 = 1 := by
  rw [ratSqrt_eq 1 1 1 rfl rfl]; norm_num

theorem ratSqrt_four : ratSqrt 4 = 2 := by
  rw [ratSqrt_eq 4 2 1 rfl rfl]; norm_num

/-- C4: the slab-method contract of `Aabb::intersect`: (1) the concrete
miss from the spec — box `[(-1,-1,-1),(1,1,1)]`, ray origin `(5,5,5)`,
direction `(1,0,0)` — returns `None` for every range; (2) a parallel axis
(direction component within `2ε` of zero) whose slab excludes the origin
rejects the whole box; (3) when no axis rejects, the result is the
tightened `t_far` if the tightened `t_near` is negative, else `t_near`. -/
theorem aabb_intersect_slab_contract :
    (∀ range : Range,
      Aabb.intersect ⟨⟨-1, -1, -1⟩, ⟨1, 1, 1⟩⟩ ⟨⟨5, 5, 5⟩, ⟨1, 0, 0⟩, 0⟩ range = none) ∧
    (∀ (b : Aabb) (ray : Ray) (range : Range) (i : ℕ), i < 3 →
      nearly_zero (ray.direction.nth i) →
      (ray.origin.nth i < b.min.nth i ∨ ray.origin.nth i > b.max.nth i) →
      b.intersect ray range = none) ∧
    (∀ (b : Aabb) (ray : Ray) (range : Range) (t_near t_far : ℚ),
      Aabb.slab3 b ray range = some (t_near, t_far) →
      b.intersect ray range = if t_near < 0 then some t_far else some t_near) := by
  refine ⟨?_, ?_, ?_⟩
  · intro range
    have haxis : Aabb.slabAxis ⟨⟨-1, -1, -1⟩, ⟨1, 1, 1⟩⟩ ⟨⟨5, 5, 5⟩, ⟨1, 0, 0⟩, 0⟩ 0
        range.min range.max = none := by
      unfold Aabb.slabAxis
      rw [if_neg (by norm_num [nearly_zero, epsF32, Vec3.nth])]
      simp only [Vec3.nth]
      norm_num
    unfold Aabb.intersect Aabb.slab3
    rw [haxis]
    rfl
  · intro b ray range i hi hz ho
    interval_cases i
    · unfold Aabb.intersect Aabb.slab3
      rw [slabAxis_parallel_outside _ _ hz ho]
      rfl
    · unfold Aabb.intersect Aabb.slab3
      cases h0 : Aabb.slabAxis b ray 0 range.min range.max with
      | none => rfl
      | some p =>
        simp only [Option.some_bind, Option.none_bind,
          slabAxis_parallel_outside _ _ hz ho]
    · unfold Aabb.intersect Aabb.slab3
      cases h0 : Aabb.slabAxis b ray 0 range.min range.max with
      | none => rfl
      | some p =>
        cases h1 : Aabb.slabAxis b ray 1 p.1 p.2 with
        | none => simp only [Option.some_bind, Option.none_bind, h1]
        | some q =>
          simp only [Option.some_bind, Option.none_bind, h1,
            slabAxis_parallel_outside _ _ hz ho]
  · intro b ray range t_near t_far h
    unfold Aabb.intersect
    rw [h]

/-- Witness for C4: the parallel-axis rejection fires on axis 1 of the
spec's concrete miss, and the final selection rule yields `t = 4` for a ray
hitting the unit box from outside. -/
theorem aabb_intersect_slab_contract_witness :
    Aabb.intersect ⟨⟨-1, -1, -1⟩, ⟨1, 1, 1⟩⟩ ⟨⟨5, 5, 5⟩, ⟨1, 0, 0⟩, 0⟩ ⟨0.025, 100⟩ = none ∧
    Aabb.intersect ⟨⟨-1, -1, -1⟩, ⟨1, 1, 1⟩⟩ ⟨⟨0, 0, -5⟩, ⟨0, 0, 1⟩, 0⟩ ⟨0.025, 100⟩ = some 4 := by
  constructor
  · exact aabb_intersect_slab_contract.2.1 _ _ _ 1 (by norm_num)
      (by norm_num [nearly_zero, Vec3.nth, epsF32]) (by norm_num [Vec3.nth])
  · have hs : Aabb.slab3 ⟨⟨-1, -1, -1⟩, ⟨1, 1, 1⟩⟩ ⟨⟨0, 0, -5⟩, ⟨0, 0, 1⟩, 0⟩ ⟨0.025, 100⟩
        = some (4, 6) := by
      unfold Aabb.slab3 Aabb.slabAxis
      norm_num [nearly_zero, epsF32, Vec3.nth, max_def, min_def]
    rw [aabb_intersect_slab_contract.2.2 _ _ _ 4 6 hs]
    norm_num
/-- Unfolding lemmas for the vector/color arithmetic instances, used to
evaluate concrete inputs. -/
theorem Vec3.add_eval (a b : Vec3) : a + b = ⟨a.x + b.x, a.y + b.y, a.z + b.z⟩ := rfl

theorem Vec3.sub_eval (a b : Vec3) : a - b = ⟨a.x - b.x, a.y - b.y, a.z - b.z⟩ := rfl

theorem Vec3.neg_eval (a : Vec3) : -a = ⟨-a.x, -a.y, -a.z⟩ := rfl

theorem Vec3.mul_eval (a b : Vec3) : a * b = ⟨a.x * b.x, a.y * b.y, a.z * b.z⟩ := rfl

theorem Vec3.smul_eval (f : ℚ) (a : Vec3) : f * a = ⟨f * a.x, f * a.y, f * a.z⟩ := rfl

theorem Vec3.mulq_eval (a : Vec3) (f : ℚ) : a * f = ⟨a.x * f, a.y * f, a.z * f⟩ := rfl

theorem Vec3.divq_eval (a : Vec3) (f : ℚ) :
    a / f = ⟨a.x * (1 / f), a.y * (1 / f), a.z * (1 / f)⟩ := rfl

theorem Vec3.subs_eval (a : Vec3) (f : ℚ) : a - f = ⟨a.x - f, a.y - f, a.z - f⟩ := rfl

theorem Vec3.adds_eval (a : Vec3) (f : ℚ) : a + f = ⟨a.x + f, a.y + f, a.z + f⟩ := rfl

theorem ColorRGB.addc_eval (a b : ColorRGB) : a + b = ⟨a.r + b.r, a.g + b.g, a.b + b.b⟩ := rfl

theorem ColorRGB.mulc_eval (a b : ColorRGB) : a * b = ⟨a.r * b.r, a.g * b.g, a.b * b.b⟩ := rfl

theorem ColorRGB.smulc_eval (f : ℚ) (a : ColorRGB) : f * a = ⟨f * a.r, f * a.g, f * a.b⟩ := rfl

theorem ColorRGB.mulqc_eval (a : ColorRGB) (f : ℚ) : a * f = ⟨a.r * f, a.g * f, a.b * f⟩ := rfl

/-- C5: the quadratic contract of `Sphere::intersect`: negative discriminant
misses; the smaller root `t1` is preferred when nonnegative; a negative `t1`
falls back to `t2`; both negative miss; an accepted hit lies strictly inside
the open range, with hit point on the ray and normal from the center; and
the spec's concrete unit-sphere example returns `t = 4`, hit `(0,0,1)`,
normal `(0,0,1)`. -/
theorem sphere_intersect_contract :
    (∀ (s : Sphere) (ray : Ray) (range : Range),
      s.disc ray < 0 → s.intersect ray range = none) ∧
    (∀ (s : Sphere) (ray : Ray) (range : Range), 0 ≤ s.disc ray → 0 ≤ s.t1 ray →
      s.intersect ray range = if in_range range (s.t1 ray) then
        some { t := s.t1 ray, hit_point := ray.point_at (s.t1 ray),
               normal := s.normal_at (ray.point_at (s.t1 ray)),
               material_id := s.material_id, n_offset := 0 } else none) ∧
    (∀ (s : Sphere) (ray : Ray) (range : Range), 0 ≤ s.disc ray → s.t1 ray < 0 → 0 ≤ s.t2 ray →
      s.intersect ray range = if in_range range (s.t2 ray) then
        some { t := s.t2 ray, hit_point := ray.point_at (s.t2 ray),
               normal := s.normal_at (ray.point_at (s.t2 ray)),
               material_id := s.material_id, n_offset := 0 } else none) ∧
    (∀ (s : Sphere) (ray : Ray) (range : Range), 0 ≤ s.disc ray → s.t1 ray < 0 → s.t2 ray < 0 →
      s.intersect ray range = none) ∧
    (∀ (s : Sphere) (ray : Ray) (range : Range) (surf : Surfel),
      s.intersect ray range = some surf →
      (range.min < surf.t ∧ surf.t < range.max) ∧
      surf.hit_point = ray.point_at surf.t ∧
      surf.normal = normalize (surf.hit_point - s.center)) ∧
    (Sphere.intersect ⟨Vec3.zeros, 1, (0 : MaterialID)⟩ ⟨⟨0, 0, 5⟩, ⟨0, 0, -1⟩, 0⟩
        ⟨1e-6, fMAX⟩ =
      some { t := 4, hit_point := ⟨0, 0, 1⟩, normal := ⟨0, 0, 1⟩,
             material_id := (0 : MaterialID), n_offset := 0 }) := by
  refine ⟨?_, ?_, ?_, ?_, ?_, ?_⟩
  · intro s ray range h
    unfold Sphere.intersect
    rw [if_pos h]
  · intro s ray range h h1
    unfold Sphere.intersect
    rw [if_neg (not_lt.mpr h), if_neg (not_lt.mpr h1), if_neg (not_lt.mpr h1)]
  · intro s ray range h h1 h2
    unfold Sphere.intersect
    rw [if_neg (not_lt.mpr h), if_pos h1, if_neg (not_lt.mpr h2)]
  · intro s ray range h h1 h2
    unfold Sphere.intersect
    rw [if_neg (not_lt.mpr h), if_pos h1, if_pos h2]
  · intro s ray range surf h
    unfold Sphere.intersect at h
    by_cases hd : s.disc ray < 0
    · rw [if_pos hd] at h
      exact absurd h (by simp)
    · rw [if_neg hd] at h
      by_cases ht1 : s.t1 ray < 0
      · rw [if_pos ht1] at h
        by_cases ht2 : s.t2 ray < 0
        · rw [if_pos ht2] at h
          exact absurd h (by simp)
        · rw [if_neg ht2] at h
          split_ifs at h with hin
          · rw [Option.some.injEq] at h
            subst h
            simp only [in_range, decide_eq_true_eq] at hin
            exact ⟨⟨hin.2, hin.1⟩, rfl, rfl⟩
      · rw [if_neg ht1, if_neg ht1] at h
        split_ifs at h with hin
        rw [Option.some.injEq] at h
        subst h
        simp only [in_range, decide_eq_true_eq] at hin
        exact ⟨⟨hin.2, hin.1⟩, rfl, rfl⟩
  · unfold Sphere.intersect Sphere.disc Sphere.t1 Sphere.t2 Sphere.normal_at
    simp only [dot, sum, square, Ray.point_at, normalize, length, Vec3.zeros, Vec3.fill,
      Vec3.add_eval, Vec3.sub_eval, Vec3.mul_eval, Vec3.smul_eval, Vec3.mulq_eval,
      Vec3.divq_eval, in_range]
    norm_num [ratSqrt_four, ratSqrt_one, fMAX, in_range]

/-- Witness for C5: the contract's preferred-smaller-root branch applied to
the spec's concrete unit-sphere example (discriminant `4`, `t1 = 4`). -/
theorem sphere_intersect_contract_witness :
    Sphere.intersect ⟨Vec3.zeros, 1, (0 : MaterialID)⟩ ⟨⟨0, 0, 5⟩, ⟨0, 0, -1⟩, 0⟩ ⟨1e-6, fMAX⟩ =
      if in_range ⟨1e-6, fMAX⟩ (Sphere.t1 ⟨Vec3.zeros, 1, (0 : MaterialID)⟩ ⟨⟨0, 0, 5⟩, ⟨0, 0, -1⟩, 0⟩) then
        some { t := Sphere.t1 ⟨Vec3.zeros, 1, (0 : MaterialID)⟩ ⟨⟨0, 0, 5⟩, ⟨0, 0, -1⟩, 0⟩,
               hit_point := Ray.point_at ⟨⟨0, 0, 5⟩, ⟨0, 0, -1⟩, 0⟩
                 (Sphere.t1 ⟨Vec3.zeros, 1, (0 : MaterialID)⟩ ⟨⟨0, 0, 5⟩, ⟨0, 0, -1⟩, 0⟩),
               normal := Sphere.normal_at ⟨Vec3.zeros, 1, (0 : MaterialID)⟩
                 (Ray.point_at ⟨⟨0, 0, 5⟩, ⟨0, 0, -1⟩, 0⟩
                   (Sphere.t1 ⟨Vec3.zeros, 1, (0 : MaterialID)⟩ ⟨⟨0, 0, 5⟩, ⟨0, 0, -1⟩, 0⟩)),
               material_id := (0 : MaterialID), n_offset := 0 }
      else none := by
  refine sphere_intersect_contract.2.1 _ _ _ ?_ ?_
  · unfold Sphere.disc
    simp only [dot, sum, square, Vec3.zeros, Vec3.fill, Vec3.sub_eval, Vec3.mul_eval]
    norm_num
  · unfold Sphere.t1
    simp only [dot, sum, square, Vec3.zeros, Vec3.fill, Vec3.sub_eval, Vec3.mul_eval]
    norm_num [ratSqrt_four]
/-- The barycentric coordinate `beta` computed by `Triangle::intersect`. -/
def Triangle.beta (tri : Triangle) (ray : Ray) (vertices : List Vec3) : ℚ :=
  let v0 := vertices.getD tri.i Vec3.zeros
  let v1 := vertices.getD tri.j Vec3.zeros
  let v2 := vertices.getD tri.k Vec3.zeros
  let a := v0.x - v1.x
  let b := v0.x - v2.x
  let c := ray.direction.x
  let d := v0.x - ray.origin.x
  let e := v0.y - v1.y
  let f := v0.y - v2.y
  let g := ray.direction.y
  let h := v0.y - ray.origin.y
  let i := v0.z - v1.z
  let j := v0.z - v2.z
  let k := ray.direction.z
  let l := v0.z - ray.origin.z
  let A : Mat3 := ⟨a, b, c, e, f, g, i, j, k⟩
  let B : Mat3 := ⟨d, b, c, h, f, g, l, j, k⟩
  let denom := 1 / determinant A
  determinant B * denom

/-- The barycentric coordinate `gamma` computed by `Triangle::intersect`. -/
def Triangle.gamma (tri : Triangle) (ray : Ray) (vertices : List Vec3) : ℚ :=
  let v0 := vertices.getD tri.i Vec3.zeros
  let v1 := vertices.getD tri.j Vec3.zeros
  let v2 := vertices.getD tri.k Vec3.zeros
  let a := v0.x - v1.x
  let b := v0.x - v2.x
  let c := ray.direction.x
  let d := v0.x - ray.origin.x
  let e := v0.y - v1.y
  let f := v0.y - v2.y
  let g := ray.direction.y
  let h := v0.y - ray.origin.y
  let i := v0.z - v1.z
  let j := v0.z - v2.z
  let k := ray.direction.z
  let l := v0.z - ray.origin.z
  let A : Mat3 := ⟨a, b, c, e, f, g, i, j, k⟩
  let Y : Mat3 := ⟨a, d, c, e, h, g, i, l, k⟩
  let denom := 1 / determinant A
  determinant Y * denom

/-- The ray parameter `t` computed by `Triangle::intersect`. -/
def Triangle.tval (tri : Triangle) (ray : Ray) (vertices : List Vec3) : ℚ :=
  let v0 := vertices.getD tri.i Vec3.zeros
  let v1 := vertices.getD tri.j Vec3.zeros
  let v2 := vertices.getD tri.k Vec3.zeros
  let a := v0.x - v1.x
  let b := v0.x - v2.x
  let d := v0.x - ray.origin.x
  let e := v0.y - v1.y
  let f := v0.y - v2.y
  let h := v0.y - ray.origin.y
  let i := v0.z - v1.z
  let j := v0.z - v2.z
  let l := v0.z - ray.origin.z
  let A : Mat3 := ⟨a, b, ray.direction.x, e, f, ray.direction.y, i, j, ray.direction.z⟩
  let T : Mat3 := ⟨a, b, d, e, f, h, i, j, l⟩
  let denom := 1 / determinant A
  determinant T * denom

/-- C6: `Triangle::intersect` rejects whenever `beta` or `gamma` falls below
the positive epsilon `1e-6`, or `beta + gamma > 1`, or `t` is outside the
open range; the spec's concrete triangle/ray example hits at `t = 1`, point
`(0.2, 0.2, 0)`. -/
theorem triangle_intersect_contract :
    (∀ (tri : Triangle) (ray : Ray) (range : Range) (verts norms : List Vec3),
      tri.beta ray verts < 1e-6 → tri.intersect ray range verts norms = none) ∧
    (∀ (tri : Triangle) (ray : Ray) (range : Range) (verts norms : List Vec3),
      tri.gamma ray verts < 1e-6 → tri.intersect ray range verts norms = none) ∧
    (∀ (tri : Triangle) (ray : Ray) (range : Range) (verts norms : List Vec3),
      tri.beta ray verts + tri.gamma ray verts > 1 →
      tri.intersect ray range verts norms = none) ∧
    (∀ (tri : Triangle) (ray : Ray) (range : Range) (verts norms : List Vec3),
      in_range range (tri.tval ray verts) = false →
      tri.intersect ray range verts norms = none) ∧
    (Triangle.intersect ⟨0, 1, 2⟩ ⟨⟨0.2, 0.2, 1⟩, ⟨0, 0, -1⟩, 0⟩ ⟨0.025, 100⟩
        [⟨0, 0, 0⟩, ⟨1, 0, 0⟩, ⟨0, 1, 0⟩] [⟨0, 0, 1⟩, ⟨0, 0, 1⟩, ⟨0, 0, 1⟩] =
      some { t := 1, hit_point := ⟨0.2, 0.2, 0⟩, normal := ⟨0, 0, 1⟩,
             material_id := (0 : MaterialID), n_offset := 0 }) := by
  refine ⟨?_, ?_, ?_, ?_, ?_⟩
  · intro tri ray range verts norms hb
    simp only [Triangle.beta] at hb
    simp only [Triangle.intersect]
    rw [if_pos hb]
  · intro tri ray range verts norms hg
    simp only [Triangle.gamma] at hg
    simp only [Triangle.intersect]
    by_cases hb : Triangle.beta tri ray verts < 1e-6
    · simp only [Triangle.beta] at hb
      rw [if_pos hb]
    · simp only [Triangle.beta] at hb
      rw [if_neg hb, if_pos hg]
  · intro tri ray range verts norms hbg
    simp only [Triangle.beta, Triangle.gamma] at hbg
    simp only [Triangle.intersect]
    by_cases hb : Triangle.beta tri ray verts < 1e-6
    · simp only [Triangle.beta] at hb
      rw [if_pos hb]
    · simp only [Triangle.beta] at hb
      rw [if_neg hb]
      by_cases hg : Triangle.gamma tri ray verts < 1e-6
      · simp only [Triangle.gamma] at hg
        rw [if_pos hg]
      · simp only [Triangle.gamma] at hg
        rw [if_neg hg, if_pos hbg]
  · intro tri ray range verts norms ht
    simp only [Triangle.tval] at ht
    simp only [Triangle.intersect]
    by_cases hb : Triangle.beta tri ray verts < 1e-6
    · simp only [Triangle.beta] at hb
      rw [if_pos hb]
    · simp only [Triangle.beta] at hb
      rw [if_neg hb]
      by_cases hg : Triangle.gamma tri ray verts < 1e-6
      · simp only [Triangle.gamma] at hg
        rw [if_pos hg]
      · simp only [Triangle.gamma] at hg
        rw [if_neg hg]
        by_cases hbg : Triangle.beta tri ray verts + Triangle.gamma tri ray verts > 1
        · simp only [Triangle.beta, Triangle.gamma] at hbg
          rw [if_pos hbg]
        · simp only [Triangle.beta, Triangle.gamma] at hbg
          rw [if_neg hbg, if_pos ?_]
          rw [ht]
          simp
  · simp only [Triangle.intersect, determinant, Ray.point_at, normalize, length, sum, square,
      List.getD_cons_zero, List.getD_cons_succ, in_range, Vec3.add_eval, Vec3.sub_eval,
      Vec3.mul_eval, Vec3.smul_eval, Vec3.mulq_eval, Vec3.divq_eval, Vec3.zeros, Vec3.fill]
    norm_num [ratSqrt_one, max_def]

/-- Witness for C6: the epsilon rejection fires on a ray through the
`beta = 0` edge of the concrete triangle. -/
theorem triangle_intersect_contract_witness :
    Triangle.beta ⟨0, 1, 2⟩ ⟨⟨0, 0.5, 1⟩, ⟨0, 0, -1⟩, 0⟩ [⟨0, 0, 0⟩, ⟨1, 0, 0⟩, ⟨0, 1, 0⟩] < 1e-6 ∧
    Triangle.intersect ⟨0, 1, 2⟩ ⟨⟨0, 0.5, 1⟩, ⟨0, 0, -1⟩, 0⟩ ⟨0.025, 100⟩
      [⟨0, 0, 0⟩, ⟨1, 0, 0⟩, ⟨0, 1, 0⟩] [⟨0, 0, 1⟩, ⟨0, 0, 1⟩, ⟨0, 0, 1⟩] = none := by
  have hb : Triangle.beta ⟨0, 1, 2⟩ ⟨⟨0, 0.5, 1⟩, ⟨0, 0, -1⟩, 0⟩
      [⟨0, 0, 0⟩, ⟨1, 0, 0⟩, ⟨0, 1, 0⟩] < 1e-6 := by
    simp only [Triangle.beta, determinant, List.getD_cons_zero, List.getD_cons_succ,
      Vec3.zeros, Vec3.fill]
    norm_num
  exact ⟨hb, triangle_intersect_contract.1 _ _ _ _ _ hb⟩
/-- C8: `refract` returns `None` exactly when the radicand
`1 - (1 - cos²θᵢ)/η²` is negative (total internal reflection), and the
normalized transmitted direction otherwise; and the shading routine's
refraction block substitutes an internally reflected ray (same `reflect`
construction as the reflection step, with the possibly flipped normal) when
`refract` yields `None`. -/
theorem refract_tir_contract :
    (∀ (v n : Vec3) (cos_theta_i eta : ℚ),
      refract v n cos_theta_i eta = none ↔
        1 - (1 - cos_theta_i * cos_theta_i) / (eta * eta) < 0) ∧
    (∀ (v n : Vec3) (cos_theta_i eta : ℚ),
      0 ≤ 1 - (1 - cos_theta_i * cos_theta_i) / (eta * eta) →
      refract v n cos_theta_i eta =
        some (normalize (-v / eta -
          (ratSqrt (1 - (1 - cos_theta_i * cos_theta_i) / (eta * eta)) - cos_theta_i / eta) * n))) ∧
    (∀ (recur : Ray → ColorRGB × Bool) (surfel : Surfel) (material : Material)
        (curr_depth : ℕ) (n v : Vec3) (visible : List Light) (color : ColorRGB),
      material.kt > 0 →
      refract v (if dot n v < 0 then normalize (-n) else n)
        (if dot n v < 0 then -dot n v else dot n v)
        (if dot n v < 0 then 1 / material.ior else material.ior) = none →
      refractionColor recur surfel material curr_depth n v visible color =
        color + material.kt *
          (recur ⟨surfel.hit_point +
                    surfel.n_offset * (if dot n v < 0 then normalize (-n) else n),
                  reflect v (if dot n v < 0 then normalize (-n) else n),
                  curr_depth + 1⟩).1 *
          material.transmissive) := by
  refine ⟨?_, ?_, ?_⟩
  · intro v n cos_theta_i eta
    simp only [refract]
    split_ifs with h
    · simp only [reduceCtorEq, false_iff, not_lt]
      exact h
    · simp only [true_iff]
      exact lt_of_not_ge h
  · intro v n cos_theta_i eta h
    simp only [refract]
    rw [if_pos h]
  · intro recur surfel material curr_depth n v visible color hkt h
    simp only [refractionColor]
    rw [if_pos hkt, h]

/-- Witness for C8: a shallow-angle exit ray (`cos θᵢ = 4/5`, `η = 1/2`)
has negative radicand, `refract` yields `None`, and the refraction block
falls back to the internally reflected ray. -/
theorem refract_tir_contract_witness :
    refract ⟨3/5, 0, 4/5⟩ (if dot ⟨0, 0, 1⟩ ⟨3/5, 0, 4/5⟩ < 0 then normalize (-⟨0, 0, 1⟩) else ⟨0, 0, 1⟩)
      (if dot ⟨0, 0, 1⟩ ⟨3/5, 0, 4/5⟩ < 0 then -dot ⟨0, 0, 1⟩ ⟨3/5, 0, 4/5⟩ else dot ⟨0, 0, 1⟩ ⟨3/5, 0, 4/5⟩)
      (if dot ⟨0, 0, 1⟩ ⟨3/5, 0, 4/5⟩ < 0 then
        1 / (Material.mk ColorRGB.black ColorRGB.black ColorRGB.black ⟨1, 1, 1⟩ 1 1 1 0 1 (1/2) 1 0).ior
      else (Material.mk ColorRGB.black ColorRGB.black ColorRGB.black ⟨1, 1, 1⟩ 1 1 1 0 1 (1/2) 1 0).ior) = none ∧
    refractionColor (fun _ => (⟨1, 1, 1⟩, true)) ⟨1, ⟨0, 0, 0⟩, ⟨0, 0, 1⟩, (0 : MaterialID), 0⟩
      (Material.mk ColorRGB.black ColorRGB.black ColorRGB.black ⟨1, 1, 1⟩ 1 1 1 0 1 (1/2) 1 0)
      0 ⟨0, 0, 1⟩ ⟨3/5, 0, 4/5⟩ [] ColorRGB.black =
      ColorRGB.black + (Material.mk ColorRGB.black ColorRGB.black ColorRGB.black ⟨1, 1, 1⟩ 1 1 1 0 1 (1/2) 1 0).kt *
        ((fun (_ : Ray) => ((⟨1, 1, 1⟩ : ColorRGB), true))
          ⟨Surfel.hit_point ⟨1, ⟨0, 0, 0⟩, ⟨0, 0, 1⟩, (0 : MaterialID), 0⟩ +
             Surfel.n_offset ⟨1, ⟨0, 0, 0⟩, ⟨0, 0, 1⟩, (0 : MaterialID), 0⟩ *
               (if dot ⟨0, 0, 1⟩ ⟨3/5, 0, 4/5⟩ < 0 then normalize (-⟨0, 0, 1⟩) else ⟨0, 0, 1⟩),
           reflect ⟨3/5, 0, 4/5⟩ (if dot ⟨0, 0, 1⟩ ⟨3/5, 0, 4/5⟩ < 0 then normalize (-⟨0, 0, 1⟩) else ⟨0, 0, 1⟩),
           0 + 1⟩).1 *
        (Material.mk ColorRGB.black ColorRGB.black ColorRGB.black ⟨1, 1, 1⟩ 1 1 1 0 1 (1/2) 1 0).transmissive := by
  have hnone : refract ⟨3/5, 0, 4/5⟩
      (if dot ⟨0, 0, 1⟩ ⟨3/5, 0, 4/5⟩ < 0 then normalize (-⟨0, 0, 1⟩) else ⟨0, 0, 1⟩)
      (if dot ⟨0, 0, 1⟩ ⟨3/5, 0, 4/5⟩ < 0 then -dot ⟨0, 0, 1⟩ ⟨3/5, 0, 4/5⟩ else dot ⟨0, 0, 1⟩ ⟨3/5, 0, 4/5⟩)
      (if dot ⟨0, 0, 1⟩ ⟨3/5, 0, 4/5⟩ < 0 then
        1 / (Material.mk ColorRGB.black ColorRGB.black ColorRGB.black ⟨1, 1, 1⟩ 1 1 1 0 1 (1/2) 1 0).ior
      else (Material.mk ColorRGB.black ColorRGB.black ColorRGB.black ⟨1, 1, 1⟩ 1 1 1 0 1 (1/2) 1 0).ior) = none := by
    norm_num [refract, dot, sum, Vec3.mul_eval]
  exact ⟨hnone, refract_tir_contract.2.2 _ _ _ _ _ _ _ _ (by norm_num) hnone⟩
/-- Any surfel returned by `Triangle::intersect` has `n_offset = 0` (the
source writes `n_offset: 0.0_f32` into the literal). -/
theorem triangle_intersect_n_offset (tri : Triangle) (ray : Ray) (range : Range)
    (verts norms : List Vec3) (s : Surfel)
    (h : tri.intersect ray range verts norms = some s) : s.n_offset = 0 := by
  simp only [Triangle.intersect] at h
  split_ifs at h
  rw [Option.some.injEq] at h
  subst h
  rfl

/-- Any surfel returned by the `Mesh::intersect` scan has `n_offset = 0`
(it forwards the triangle surfels unchanged). -/
theorem meshScan_n_offset (ray : Ray) (verts norms : List Vec3) :
    ∀ (l : List Triangle) (t_range : Range) (acc : Option Surfel) (s : Surfel),
    (∀ s0, acc = some s0 → s0.n_offset = 0) →
    meshScan ray verts norms l t_range acc = some s → s.n_offset = 0 := by
  intro l
  induction l with
  | nil =>
    intro t_range acc s hacc h
    exact hacc s h
  | cons tri rest ih =>
    intro t_range acc s hacc h
    simp only [meshScan] at h
    cases htri : tri.intersect ray t_range verts norms with
    | some surf =>
      rw [htri] at h
      exact ih _ _ s (fun s0 hs0 => by
        rw [Option.some.injEq] at hs0
        subst hs0
        exact triangle_intersect_n_offset _ _ _ _ _ _ htri) h
    | none =>
      rw [htri] at h
      exact ih _ _ s hacc h

/-- C9 counterexample: a concrete mesh triangle hit whose surfel carries
`n_offset = 0`, which is not strictly positive — the claim fails for
triangle/mesh hits. -/
theorem surfel_n_offset_counterexample :
    ∃ s : Surfel, Triangle.intersect ⟨0, 1, 2⟩ ⟨⟨0.3, 0.3, 2⟩, ⟨0, 0, -1⟩, 0⟩ ⟨0.025, 50⟩
      [⟨0, 0, 0⟩, ⟨1, 0, 0⟩, ⟨0, 1, 0⟩] [⟨0, 0, 1⟩, ⟨0, 0, 1⟩, ⟨0, 0, 1⟩] = some s ∧
      ¬ 0 < s.n_offset := by
  refine ⟨⟨2, ⟨0.3, 0.3, 0⟩, ⟨0, 0, 1⟩, (0 : MaterialID), 0⟩, ?_, by norm_num⟩
  simp only [Triangle.intersect, determinant, Ray.point_at, normalize, length, sum, square,
    List.getD_cons_zero, List.getD_cons_succ, in_range, Vec3.add_eval, Vec3.sub_eval,
    Vec3.mul_eval, Vec3.smul_eval, Vec3.mulq_eval, Vec3.divq_eval, Vec3.zeros, Vec3.fill]
  norm_num [ratSqrt_one, max_def]

/-- C9 amended: surfels from `Instance::intersect` carry the strictly
positive `n_offset = 1e-10`; surfels from `Triangle::intersect` and
`Mesh::intersect` carry the placeholder `n_offset = 0` (overwritten by the
`Instance` wrapper before shading). -/
theorem surfel_n_offset_amended :
    (∀ (inst : Instance) (ray : Ray) (range : Range) (s : Surfel),
      inst.intersect ray range = some s → s.n_offset = 1 / 10 ^ 10 ∧ 0 < s.n_offset) ∧
    (∀ (tri : Triangle) (ray : Ray) (range : Range) (verts norms : List Vec3) (s : Surfel),
      tri.intersect ray range verts norms = some s → s.n_offset = 0) ∧
    (∀ (m : Mesh) (ray : Ray) (range : Range) (s : Surfel),
      m.intersect ray range = some s → s.n_offset = 0) := by
  refine ⟨?_, ?_, ?_⟩
  · intro inst ray range s h
    simp only [Instance.intersect] at h
    cases hm : inst.model.intersect
        ⟨(inst.inverse.mulVec (Vec4.from_vec3 ray.origin 1)).to_vec3,
         normalize (inst.inverse.mulVec (Vec4.from_vec3 ray.direction 0)).to_vec3,
         ray.depth⟩ range with
    | some surf =>
      rw [hm] at h
      rw [Option.some.injEq] at h
      subst h
      exact ⟨rfl, by norm_num⟩
    | none =>
      rw [hm] at h
      exact absurd h (by simp)
  · exact fun tri ray range verts norms s h => triangle_intersect_n_offset _ _ _ _ _ _ h
  · intro m ray range s h
    exact meshScan_n_offset _ _ _ _ _ _ _ (by intro s0 hs0; cases hs0) h

/-- Witness for the amended C9: a concrete identity-transform instance hit
whose surfel has `n_offset = 1e-10 > 0`. -/
theorem surfel_n_offset_amended_witness :
    Instance.intersect
      ⟨⟨[⟨0, 0, 0⟩, ⟨1, 0, 0⟩, ⟨0, 1, 0⟩], [⟨0, 1, 2⟩], [⟨0, 0, 1⟩, ⟨0, 0, 1⟩, ⟨0, 0, 1⟩],
        ⟨⟨0, 0, 0⟩, ⟨1, 1, 0⟩⟩⟩, (7 : MaterialID), ⟨⟨0, 0, 0⟩, ⟨1, 1, 0⟩⟩,
        Mat4.identity, Mat4.identity⟩
      ⟨⟨0.05, 0.2, 0.4⟩, ⟨0.6, 0, -0.8⟩, 0⟩ ⟨0.025, 50⟩ =
      some ⟨0.5, ⟨0.35, 0.2, 0⟩, ⟨0, 0, 1⟩, (7 : MaterialID), 1 / 10 ^ 10⟩ ∧
    (0 : ℚ) < Surfel.n_offset ⟨0.5, ⟨0.35, 0.2, 0⟩, ⟨0, 0, 1⟩, (7 : MaterialID), 1 / 10 ^ 10⟩ := by
  have heval : Instance.intersect
      ⟨⟨[⟨0, 0, 0⟩, ⟨1, 0, 0⟩, ⟨0, 1, 0⟩], [⟨0, 1, 2⟩], [⟨0, 0, 1⟩, ⟨0, 0, 1⟩, ⟨0, 0, 1⟩],
        ⟨⟨0, 0, 0⟩, ⟨1, 1, 0⟩⟩⟩, (7 : MaterialID), ⟨⟨0, 0, 0⟩, ⟨1, 1, 0⟩⟩,
        Mat4.identity, Mat4.identity⟩
      ⟨⟨0.05, 0.2, 0.4⟩, ⟨0.6, 0, -0.8⟩, 0⟩ ⟨0.025, 50⟩ =
      some ⟨0.5, ⟨0.35, 0.2, 0⟩, ⟨0, 0, 1⟩, (7 : MaterialID), 1 / 10 ^ 10⟩ := by
    simp only [Instance.intersect, Mesh.intersect, meshScan, Triangle.intersect,
      Mat4.identity, Mat4.transpose, Mat4.mulVec, Vec4.from_vec3, Vec4.to_vec3,
      determinant, Ray.point_at, normalize, length, sum, square,
      List.getD_cons_zero, List.getD_cons_succ, in_range, Vec3.add_eval, Vec3.sub_eval,
      Vec3.mul_eval, Vec3.smul_eval, Vec3.mulq_eval, Vec3.divq_eval, Vec3.zeros, Vec3.fill]
    norm_num [ratSqrt_one, max_def]
  exact ⟨heval, (surfel_n_offset_amended.1 _ _ _ _ heval).2⟩
/-- Characterization of the `shadow_intensity` walk, following the spec's
wording: `none` when some tested occluder is fully opaque (`kt ≤ 0`, the
walk stops), otherwise `some k` where `k` counts the transmissive occluders
hit, the range advancing past each (`range.min := surf.t`). -/
def shadowWalk (tr : RayTracer) (ray : Ray) : List AObj → Range → Option ℕ
  | [], _ => some 0
  | o :: rest, range =>
    match o.intersect ray range with
    | some surf =>
      if (material_for_surfel tr surf).kt > 0 then
        (shadowWalk tr ray rest { range with min := surf.t }).map (· + 1)
      else none
    | none => shadowWalk tr ray rest range

/-- The `shadow_intensity` loop computes `intensity · (1/2)^k` when all `k`
occluders on the walk are transmissive, and `0` when any opaque occluder is
hit. -/
theorem shadowScan_eq_walk (tr : RayTracer) (ray : Ray) :
    ∀ (l : List AObj) (range : Range) (intensity : ℚ),
      shadowScan tr ray l range intensity =
        match shadowWalk tr ray l range with
        | none => 0
        | some k => intensity * (1 / 2) ^ k := by
  intro l
  induction l with
  | nil =>
    intro range intensity
    simp [shadowScan, shadowWalk]
  | cons o rest ih =>
    intro range intensity
    cases h : o.intersect ray range with
    | some surf =>
      by_cases hkt : (material_for_surfel tr surf).kt > 0
      · simp only [shadowScan, shadowWalk, h, if_pos hkt, ih]
        cases hw : shadowWalk tr ray rest { range with min := surf.t } with
        | none => simp [hw]
        | some k =>
          simp only [hw, Option.map_some]
          show intensity * 0.5 * (1 / 2) ^ k = intensity * (1 / 2) ^ (k + 1)
          rw [pow_succ]
          ring_nf
      · simp only [shadowScan, shadowWalk, h, if_neg hkt]
    | none =>
      simp only [shadowScan, shadowWalk, h]
      exact ih range intensity

/-- C3: `RayTracer::shadow_intensity` returns `0` exactly when the walk
meets a fully opaque occluder, and otherwise attenuates the unoccluded
intensity by `0.5` once per transmissive occluder hit (the ray range being
advanced past each); in particular one opaque occluder gives `0` and
exactly one transmissive occluder gives half the unoccluded intensity. -/
theorem shadow_intensity_per_occluder (tr : RayTracer) (ray : Ray) (light_intensity : ℚ) :
    shadow_intensity tr ray light_intensity =
      match shadowWalk tr ray tr.objects ⟨0.001, fMAX⟩ with
      | none => 0
      | some k => light_intensity * (1 / 2) ^ k := by
  unfold shadow_intensity
  exact shadowScan_eq_walk tr ray tr.objects ⟨0.001, fMAX⟩ light_intensity
/-- `shadeCore` invokes its recursive sampler only on rays of depth
`curr_depth + 1` (reflection, transmission, internal-reflection fallback),
so two samplers agreeing on that depth shade identically. -/
theorem shadeCore_congr (f g : Ray → ColorRGB × Bool) (tr : RayTracer) (surfel : Surfel)
    (material : Material) (curr_depth : ℕ)
    (h : ∀ r : Ray, r.depth = curr_depth + 1 → f r = g r) :
    shadeCore f tr surfel material curr_depth = shadeCore g tr surfel material curr_depth := by
  simp only [shadeCore, refractionColor, h]

/-- Fuel stability: any fuel of at least `max_depth + 2 - depth` computes
the same value — the recursion never needs more than `max_depth + 1` nested
shading levels below a ray. -/
theorem sample_rayFuel_stable : ∀ (n m : ℕ) (tr : RayTracer) (ray : Ray),
    max_depth + 2 - ray.depth ≤ n → max_depth + 2 - ray.depth ≤ m →
    sample_rayFuel n tr ray = sample_rayFuel m tr ray := by
  intro n
  induction n using Nat.strong_induction_on with
  | _ n ih =>
    intro m tr ray hn hm
    cases n with
    | zero =>
      have hd : ray.depth > max_depth := by unfold max_depth at *; omega
      cases m with
      | zero => rfl
      | succ m => simp only [sample_rayFuel, if_pos hd]
    | succ n =>
      cases m with
      | zero =>
        have hd : ray.depth > max_depth := by unfold max_depth at *; omega
        simp only [sample_rayFuel, if_pos hd]
      | succ m =>
        simp only [sample_rayFuel]
        by_cases hd : ray.depth > max_depth
        · rw [if_pos hd, if_pos hd]
        · rw [if_neg hd, if_neg hd]
          cases htr : trace_ray tr ray with
          | none => rfl
          | some surf =>
            have hrec : ∀ r : Ray, r.depth = ray.depth + 1 →
                sample_rayFuel n tr r = sample_rayFuel m tr r := by
              intro r hr
              refine ih n (Nat.lt_succ_self n) m tr r ?_ ?_
              · unfold max_depth at hn hd ⊢
                omega
              · unfold max_depth at hm hd ⊢
                omega
            exact congrArg (fun c => (c, true))
              (shadeCore_congr _ _ tr surf (material_for_surfel tr surf) ray.depth hrec)

/-- C2: recursion in the tracer is depth-limited: `sample_ray` returns
black (not even the background) without shading once `ray.depth` exceeds
`max_depth = 5`; any fuel of at least `max_depth + 2 - depth` suffices
(at most `max_depth + 1` nested shading calls from a primary ray, i.e. at
most `max_depth` recursive ones); and on a hit at admissible depth it
shades via `shade`, whose secondary rays all carry `curr_depth + 1` (see
`shadeCore`). -/
theorem sample_ray_depth_limited :
    (∀ (tr : RayTracer) (ray : Ray), ray.depth > max_depth →
      sample_ray tr ray = (ColorRGB.black, false)) ∧
    (∀ (n : ℕ) (tr : RayTracer) (ray : Ray), max_depth + 2 - ray.depth ≤ n →
      sample_rayFuel n tr ray = sample_ray tr ray) ∧
    (∀ (tr : RayTracer) (ray : Ray) (surf : Surfel), ray.depth ≤ max_depth →
      trace_ray tr ray = some surf →
      sample_ray tr ray = (shade tr surf (material_for_surfel tr surf) ray.depth, true)) ∧
    (∀ (tr : RayTracer) (ray : Ray), ray.depth ≤ max_depth → trace_ray tr ray = none →
      sample_ray tr ray = (tr.bgcolor, false)) := by
  refine ⟨?_, ?_, ?_, ?_⟩
  · intro tr ray hd
    unfold sample_ray
    cases hf : max_depth + 2 - ray.depth with
    | zero => rfl
    | succ k => simp only [sample_rayFuel, if_pos hd]
  · intro n tr ray hn
    exact sample_rayFuel_stable n (max_depth + 2 - ray.depth) tr ray hn le_rfl
  · intro tr ray surf hdep htr
    have hf : max_depth + 2 - ray.depth = (max_depth + 1 - ray.depth) + 1 := by
      unfold max_depth at *
      omega
    unfold sample_ray
    rw [hf]
    simp only [sample_rayFuel, if_neg (not_lt.mpr hdep), htr]
    refine congrArg (fun c => (c, true)) (shadeCore_congr _ _ tr surf _ ray.depth ?_)
    intro r hr
    have h1 : max_depth + 2 - r.depth ≤ max_depth + 1 - ray.depth := by
      unfold max_depth at *
      omega
    rw [sample_rayFuel_stable _ (max_depth + 2 - r.depth) tr r h1 le_rfl]
    rfl
  · intro tr ray hdep htr
    have hf : max_depth + 2 - ray.depth = (max_depth + 1 - ray.depth) + 1 := by
      unfold max_depth at *
      omega
    unfold sample_ray
    rw [hf]
    simp only [sample_rayFuel, if_neg (not_lt.mpr hdep), htr]

/-- Witness for C2: at depth 6 (> `max_depth`) the sampler returns black
and no hit, for a concrete trivial tracer. -/
theorem sample_ray_depth_limited_witness :
    sample_ray ⟨[], [], [], ColorRGB.black, ⟨0.1, 0.2, 0.3⟩, Vec3.zeros⟩
      ⟨Vec3.zeros, ⟨0, 0, 1⟩, 6⟩ = (ColorRGB.black, false) := by
  exact sample_ray_depth_limited.1 _ _ (by norm_num [max_depth])
/-- One unfolding step of `chunksOf` for positive chunk size and nonempty
input. -/
theorem chunksOf_step (n : ℕ) (hn : 0 < n) (l : List ColorRGB) (hl : l ≠ []) :
    chunksOf n l = l.take n :: chunksOf n (l.drop n) := by
  cases n with
  | zero => omega
  | succ n =>
    cases l with
    | nil => exact absurd rfl hl
    | cons x xs => simp only [chunksOf]

/-- Chunking a replicated row-major buffer of `m * n` cells into chunks of
`n` yields `m` rows. -/
theorem chunksOf_replicate (n m : ℕ) (hn : 0 < n) (c : ColorRGB) :
    chunksOf n (List.replicate (m * n) c) = List.replicate m (List.replicate n c) := by
  induction m with
  | zero =>
    rw [Nat.zero_mul, List.replicate_zero, List.replicate_zero]
    simp only [chunksOf]
  | succ m ih =>
    have h1 : (m + 1) * n = n + m * n := by ring
    rw [h1]
    rw [chunksOf_step n hn _ (by simp; omega)]
    rw [List.take_replicate, List.drop_replicate]
    have h2 : min n (n + m * n) = n := by omega
    have h3 : n + m * n - n = m * n := by omega
    rw [h2, h3, ih, List.replicate_succ]

/-- `rowWrite` preserves the row length. -/
theorem rowWrite_length (sample : ℕ → ℕ → ColorRGB) (w k : ℕ) :
    ∀ (j0 : ℕ) (l : List ColorRGB), (rowWrite sample w k j0 l).length = l.length := by
  intro j0 l
  induction l generalizing j0 with
  | nil => rfl
  | cons c rest ih =>
    simp only [rowWrite]
    split_ifs
    · rfl
    · simp [ih]

/-- Cell `p` of a written row: overwritten with `sample (j0 + p) k` exactly
when the running index stays strictly below the `width - 1` break point. -/
theorem rowWrite_getElem? (sample : ℕ → ℕ → ColorRGB) (w k : ℕ) :
    ∀ (l : List ColorRGB) (j0 p : ℕ), j0 ≤ w - 1 →
    (rowWrite sample w k j0 l)[p]? =
      if j0 + p < w - 1 then (l[p]?).map (fun _ => sample (j0 + p) k) else l[p]? := by
  intro l
  induction l with
  | nil =>
    intro j0 p hj0
    simp only [rowWrite]
    split <;> simp
  | cons c rest ih =>
    intro j0 p hj0
    by_cases hj : j0 = w - 1
    · have hlt : ¬ j0 + p < w - 1 := by omega
      simp only [rowWrite, if_pos hj, if_neg hlt]
    · have hj0' : j0 < w - 1 := by omega
      simp only [rowWrite, if_neg hj]
      cases p with
      | zero =>
        simp [hj0']
      | succ p =>
        rw [List.getElem?_cons_succ, List.getElem?_cons_succ, ih (j0 + 1) p (by omega)]
        have he : j0 + 1 + p = j0 + (p + 1) := by omega
        rw [he]

/-- Indexing the flattening of uniform-width rows. -/
theorem flatten_getElem?_uniform (w : ℕ) :
    ∀ (rows : List (List ColorRGB)) (i j : ℕ), j < w → (∀ r ∈ rows, r.length = w) →
    rows.flatten[i * w + j]? = (rows[i]?.getD [])[j]? := by
  intro rows
  induction rows with
  | nil =>
    intro i j hj hlen
    simp
  | cons r rest ih =>
    intro i j hj hlen
    have hr : r.length = w := hlen r (by simp)
    cases i with
    | zero =>
      rw [List.flatten_cons, List.getElem?_append_left (by omega : (0 * w + j) < r.length)]
      simp
    | succ i =>
      rw [List.flatten_cons, List.getElem?_append_right (by rw [hr]; nlinarith : r.length ≤ (i + 1) * w + j)]
      have he : (i + 1) * w + j - r.length = i * w + j := by rw [hr]; ring_nf; omega
      rw [he, ih i j hj (fun x hx => hlen x (by simp [hx]))]
      simp

/-- C10: in the square-image antialiasing pass, row 0 and the last cell of
every other row keep the fresh framebuffer's initial black, while every
other pixel receives its sampled value (written exactly once by the single
traversal); `sample` abstracts `Pixel::sample` on the pass-1 buffer. -/
theorem render_pass2_write_pattern (sample : ℕ → ℕ → ColorRGB) (w : ℕ) (hw : 0 < w)
    (j k : ℕ) (hj : j < w) (hk : k < w) :
    (render_pass2 sample w w).getD (k * w + j) ColorRGB.black =
      if k = 0 ∨ j = w - 1 then ColorRGB.black else sample j k := by
  simp only [render_pass2]
  rw [chunksOf_replicate w w hw]
  obtain ⟨w', rfl⟩ : ∃ w', w = w' + 1 := ⟨w - 1, by omega⟩
  rw [List.replicate_succ]
  have hlens : ∀ r ∈ (List.replicate w' (List.replicate (w' + 1) ColorRGB.black)).enum.map
      (fun p => rowWrite sample (w' + 1) (p.1 + 1) 0 p.2), r.length = w' + 1 := by
    intro r hr
    rcases List.mem_map.mp hr with ⟨⟨i, a⟩, hp, rfl⟩
    have hmem := List.mk_mem_enum_iff_getElem?.mp hp
    rw [List.getElem?_replicate] at hmem
    by_cases hi : i < w'
    · rw [if_pos hi, Option.some.injEq] at hmem
      subst hmem
      rw [rowWrite_length, List.length_replicate]
    · rw [if_neg hi] at hmem
      cases hmem
  rw [List.getD_eq_getElem?_getD]
  cases k with
  | zero =>
    have hidx : 0 * (w' + 1) + j = j := by ring
    rw [hidx, List.getElem?_append_left (by simp; omega), List.getElem?_replicate, if_pos hj]
    simp
  | succ k' =>
    have hge : (List.replicate (w' + 1) ColorRGB.black).length ≤ (k' + 1) * (w' + 1) + j := by
      rw [List.length_replicate]
      nlinarith
    rw [List.getElem?_append_right hge]
    have he : (k' + 1) * (w' + 1) + j - (List.replicate (w' + 1) ColorRGB.black).length =
        k' * (w' + 1) + j := by
      rw [List.length_replicate]
      ring_nf
      omega
    rw [he, flatten_getElem?_uniform (w' + 1) _ k' j hj hlens,
      List.getElem?_map, List.getElem?_enum, List.getElem?_replicate, if_pos (by omega : k' < w')]
    simp only [Option.map_some', Option.getD_some]
    rw [rowWrite_getElem? sample (w' + 1) (k' + 1) _ 0 j (by omega)]
    have hz : 0 + j = j := by omega
    rw [hz, List.getElem?_replicate, if_pos hj]
    by_cases hlast : j < w' + 1 - 1
    · rw [if_pos hlast]
      rw [if_neg (by omega)]
      rfl
    · rw [if_neg hlast]
      rw [if_pos (by omega)]
      rfl

/-- Witness for C10 at a concrete 2×2 image: pixel (0,1) is sampled, the
rest keep black. -/
theorem render_pass2_write_pattern_witness :
    (render_pass2 (fun _ _ => ⟨1, 1, 1⟩) 2 2).getD (1 * 2 + 0) ColorRGB.black =
      if (1 : ℕ) = 0 ∨ (0 : ℕ) = 2 - 1 then ColorRGB.black else (⟨1, 1, 1⟩ : ColorRGB) := by
  exact render_pass2_write_pattern (fun _ _ => ⟨1, 1, 1⟩) 2 (by norm_num) 0 1
    (by norm_num) (by norm_num)
/-- A box with ordered corners on each axis (every box built from real
geometry; the spec's AABB invariant). -/
def properBox (b : Aabb) : Prop := ∀ i, i < 3 → b.min.nth i ≤ b.max.nth i

/-- Componentwise containment of slabs: every slab of `c` contains the
corresponding slab of `b`. -/
def subsetBox (b c : Aabb) : Prop :=
  ∀ i, i < 3 → c.min.nth i ≤ b.min.nth i ∧ b.max.nth i ≤ c.max.nth i

theorem merge_min_nth (a b : Aabb) (i : ℕ) (hi : i < 3) :
    (a.merge b).min.nth i = Min.min (a.min.nth i) (b.min.nth i) := by
  rcases i with _ | _ | _ | i
  · simp [Aabb.merge, Vec3.nth]
  · simp [Aabb.merge, Vec3.nth]
  · simp [Aabb.merge, Vec3.nth]
  · omega

theorem merge_max_nth (a b : Aabb) (i : ℕ) (hi : i < 3) :
    (a.merge b).max.nth i = Max.max (a.max.nth i) (b.max.nth i) := by
  rcases i with _ | _ | _ | i
  · simp [Aabb.merge, Vec3.nth]
  · simp [Aabb.merge, Vec3.nth]
  · simp [Aabb.merge, Vec3.nth]
  · omega

theorem subsetBox_refl (b : Aabb) : subsetBox b b := fun _ _ => ⟨le_rfl, le_rfl⟩

theorem subsetBox_trans {a b c : Aabb} (h1 : subsetBox a b) (h2 : subsetBox b c) :
    subsetBox a c := fun i hi =>
  ⟨le_trans ((h2 i hi).1) ((h1 i hi).1), le_trans ((h1 i hi).2) ((h2 i hi).2)⟩

theorem subsetBox_merge_left (a b : Aabb) : subsetBox a (a.merge b) := by
  intro i hi
  rw [merge_min_nth _ _ _ hi, merge_max_nth _ _ _ hi]
  exact ⟨min_le_left _ _, le_max_left _ _⟩

theorem subsetBox_merge_right (a b : Aabb) : subsetBox b (a.merge b) := by
  intro i hi
  rw [merge_min_nth _ _ _ hi, merge_max_nth _ _ _ hi]
  exact ⟨min_le_right _ _, le_max_right _ _⟩

theorem properBox_merge_left {a : Aabb} (b : Aabb) (h : properBox a) :
    properBox (a.merge b) := by
  intro i hi
  rw [merge_min_nth _ _ _ hi, merge_max_nth _ _ _ hi]
  exact le_trans (min_le_left _ _) (le_trans (h i hi) (le_max_left _ _))

theorem properBox_merge_right (a : Aabb) {b : Aabb} (h : properBox b) :
    properBox (a.merge b) := by
  intro i hi
  rw [merge_min_nth _ _ _ hi, merge_max_nth _ _ _ hi]
  exact le_trans (min_le_right _ _) (le_trans (h i hi) (le_max_right _ _))

theorem foldl_merge_mono (objs : List AObj) :
    ∀ (init : Aabb) (b : Aabb), subsetBox b init →
    subsetBox b (objs.foldl (fun acc o => acc.merge o.bbox) init) := by
  induction objs with
  | nil => exact fun init b h => h
  | cons o rest ih =>
    intro init b h
    exact ih _ b (subsetBox_trans h (subsetBox_merge_left _ _))

theorem mem_subset_foldl (objs : List AObj) :
    ∀ (init : Aabb) (o : AObj), o ∈ objs →
    subsetBox o.bbox (objs.foldl (fun acc x => acc.merge x.bbox) init) := by
  induction objs with
  | nil =>
    intro init o h
    cases h
  | cons x rest ih =>
    intro init o h
    rcases List.mem_cons.mp h with rfl | hmem
    · rw [List.foldl_cons]
      exact foldl_merge_mono rest _ _ (subsetBox_merge_right _ _)
    · rw [List.foldl_cons]
      exact ih _ o hmem

theorem subset_compute_bbox {o : AObj} {objs : List AObj} (h : o ∈ objs) :
    subsetBox o.bbox (compute_bbox objs) :=
  mem_subset_foldl objs Aabb.maxmin o h

theorem foldl_merge_proper (objs : List AObj) :
    ∀ (init : Aabb), properBox init →
    properBox (objs.foldl (fun acc o => acc.merge o.bbox) init) := by
  induction objs with
  | nil => exact fun init h => h
  | cons o rest ih => exact fun init h => ih _ (properBox_merge_left _ h)

theorem proper_compute_bbox {objs : List AObj} (hne : objs ≠ [])
    (hall : ∀ o ∈ objs, properBox o.bbox) : properBox (compute_bbox objs) := by
  unfold compute_bbox
  cases objs with
  | nil => exact absurd rfl hne
  | cons o rest =>
    exact foldl_merge_proper rest _
      (properBox_merge_right _ (hall o (by simp)))
theorem swap_pair_eq (t1 t2 : ℚ) :
    (if t1 > t2 then (t2, t1) else (t1, t2)) = (Min.min t1 t2, Max.max t1 t2) := by
  split_ifs with h
  · rw [min_eq_right (le_of_lt h), max_eq_left (le_of_lt h)]
  · rw [min_eq_left (not_lt.mp h), max_eq_right (not_lt.mp h)]

/-- A direction component that is not nearly zero is nonzero. -/
theorem ne_zero_of_not_nearly_zero {d : ℚ} (h : ¬ nearly_zero d) : d ≠ 0 := by
  intro hd
  subst hd
  exact h (by norm_num [nearly_zero, epsF32])

/-- Monotonicity of one slab step under slab enlargement: if the smaller
(properly ordered) box passes an axis with running interval at least as
tight, the larger box passes with a looser resulting interval. -/
theorem slabAxis_mono (b c : Aabb) (ray : Ray) (i : ℕ)
    (hsub : c.min.nth i ≤ b.min.nth i ∧ b.max.nth i ≤ c.max.nth i)
    (hprop : b.min.nth i ≤ b.max.nth i)
    (tnb tfb tnc tfc : ℚ) (hn : tnc ≤ tnb) (hf : tfb ≤ tfc)
    (res : ℚ × ℚ) (h : Aabb.slabAxis b ray i tnb tfb = some res) :
    ∃ res', Aabb.slabAxis c ray i tnc tfc = some res' ∧ res'.1 ≤ res.1 ∧ res.2 ≤ res'.2 := by
  simp only [Aabb.slabAxis] at h ⊢
  by_cases hz : nearly_zero (ray.direction.nth i)
  · rw [if_pos hz] at h ⊢
    split_ifs at h with ho
    rw [Option.some.injEq] at h
    subst h
    push_neg at ho
    rw [if_neg (by push_neg; exact ⟨le_trans hsub.1 ho.1, le_trans ho.2 hsub.2⟩)]
    exact ⟨(tnc, tfc), rfl, hn, hf⟩
  · rw [if_neg hz] at h ⊢
    rw [swap_pair_eq] at h ⊢
    have hd := ne_zero_of_not_nearly_zero hz
    set d := ray.direction.nth i with hdd
    set o := ray.origin.nth i with hoo
    -- componentwise slab interval bounds
    have key : Min.min ((c.min.nth i - o) * (1 / d)) ((c.max.nth i - o) * (1 / d)) ≤
        Min.min ((b.min.nth i - o) * (1 / d)) ((b.max.nth i - o) * (1 / d)) ∧
        Max.max ((b.min.nth i - o) * (1 / d)) ((b.max.nth i - o) * (1 / d)) ≤
        Max.max ((c.min.nth i - o) * (1 / d)) ((c.max.nth i - o) * (1 / d)) := by
      rcases lt_or_gt_of_ne hd with hneg | hpos
      · have hfneg : 1 / d < 0 := by
          exact one_div_neg.mpr hneg
        have h1 : (b.min.nth i - o) * (1 / d) ≤ (c.min.nth i - o) * (1 / d) :=
          mul_le_mul_of_nonpos_right (by linarith [hsub.1]) (le_of_lt hfneg)
        have h2 : (c.max.nth i - o) * (1 / d) ≤ (b.max.nth i - o) * (1 / d) :=
          mul_le_mul_of_nonpos_right (by linarith [hsub.2]) (le_of_lt hfneg)
        have hsort : (b.max.nth i - o) * (1 / d) ≤ (b.min.nth i - o) * (1 / d) :=
          mul_le_mul_of_nonpos_right (by linarith [hprop]) (le_of_lt hfneg)
        constructor
        · exact le_trans (min_le_right _ _) (by rw [min_eq_right hsort]; exact h2)
        · rw [max_eq_left (by linarith)]
          exact le_trans h1 (le_max_left _ _)
      · have hfpos : 0 < 1 / d := by
          exact one_div_pos.mpr hpos
        have h1 : (c.min.nth i - o) * (1 / d) ≤ (b.min.nth i - o) * (1 / d) :=
          mul_le_mul_of_nonneg_right (by linarith [hsub.1]) (le_of_lt hfpos)
        have h2 : (b.max.nth i - o) * (1 / d) ≤ (c.max.nth i - o) * (1 / d) :=
          mul_le_mul_of_nonneg_right (by linarith [hsub.2]) (le_of_lt hfpos)
        have hsort : (b.min.nth i - o) * (1 / d) ≤ (b.max.nth i - o) * (1 / d) :=
          mul_le_mul_of_nonneg_right (by linarith [hprop]) (le_of_lt hfpos)
        constructor
        · rw [min_eq_left hsort]
          exact le_trans (min_le_left _ _) h1
        · rw [max_eq_right hsort]
          exact le_trans h2 (le_max_right _ _)
    split_ifs at h with h1 h2
    rw [Option.some.injEq] at h
    subst h
    push_neg at h1 h2
    have hpass : Max.max (Min.min ((c.min.nth i - o) * (1 / d)) ((c.max.nth i - o) * (1 / d))) tnc ≤
        Min.min (Max.max ((c.min.nth i - o) * (1 / d)) ((c.max.nth i - o) * (1 / d))) tfc :=
      le_trans (le_trans (max_le_max key.1 hn) h1) (min_le_min key.2 hf)
    have hnn : (0 : ℚ) ≤
        Min.min (Max.max ((c.min.nth i - o) * (1 / d)) ((c.max.nth i - o) * (1 / d))) tfc :=
      le_trans h2 (min_le_min key.2 hf)
    refine ⟨(Max.max (Min.min ((c.min.nth i - o) * (1 / d)) ((c.max.nth i - o) * (1 / d))) tnc,
             Min.min (Max.max ((c.min.nth i - o) * (1 / d)) ((c.max.nth i - o) * (1 / d))) tfc),
            ?_, ?_, ?_⟩
    · rw [if_neg (not_lt.mpr hpass), if_neg (not_lt.mpr hnn)]
    · exact max_le_max key.1 hn
    · exact min_le_min key.2 hf
/-- Monotonicity of the whole slab chain under slab enlargement. -/
theorem slab3_mono (b c : Aabb) (ray : Ray) (range : Range)
    (hsub : subsetBox b c) (hprop : properBox b)
    (res : ℚ × ℚ) (h : Aabb.slab3 b ray range = some res) :
    ∃ res', Aabb.slab3 c ray range = some res' := by
  unfold Aabb.slab3 at h ⊢
  generalize h0 : Aabb.slabAxis b ray 0 range.min range.max = r0 at h
  rcases r0 with _ | p0
  · exact Option.noConfusion h
  · rw [Option.some_bind] at h
    obtain ⟨q0, hq0, hq0n, hq0f⟩ := slabAxis_mono b c ray 0 (hsub 0 (by omega))
      (hprop 0 (by omega)) range.min range.max range.min range.max le_rfl le_rfl p0 h0
    generalize h1 : Aabb.slabAxis b ray 1 p0.1 p0.2 = r1 at h
    rcases r1 with _ | p1
    · exact Option.noConfusion h
    · rw [Option.some_bind] at h
      obtain ⟨q1, hq1, hq1n, hq1f⟩ := slabAxis_mono b c ray 1 (hsub 1 (by omega))
        (hprop 1 (by omega)) p0.1 p0.2 q0.1 q0.2 hq0n hq0f p1 h1
      obtain ⟨q2, hq2, hq2n, hq2f⟩ := slabAxis_mono b c ray 2 (hsub 2 (by omega))
        (hprop 2 (by omega)) p1.1 p1.2 q1.1 q1.2 hq1n hq1f res h
      exact ⟨q2, by rw [hq0, Option.some_bind, hq1, Option.some_bind, hq2]⟩

/-- Slab-test monotonicity for `Aabb::intersect`: enlarging a properly
ordered box can only turn misses into hits, never hits into misses. -/
theorem aabb_intersect_mono (b c : Aabb) (ray : Ray) (range : Range)
    (hsub : subsetBox b c) (hprop : properBox b)
    (h : (Aabb.intersect b ray range).isSome) : (Aabb.intersect c ray range).isSome := by
  unfold Aabb.intersect at h ⊢
  generalize hb : Aabb.slab3 b ray range = rb at h
  rcases rb with _ | res
  · exact absurd h (by simp)
  · obtain ⟨res', hres⟩ := slab3_mono b c ray range hsub hprop res hb
    obtain ⟨a, b'⟩ := res'
    rw [hres]
    by_cases ha : a < 0 <;> simp [ha]
/-- The candidate hit parameters of a list of objects for a ray and a lower
range bound. -/
def candTs (objs : List AObj) (ray : Ray) (m : ℚ) : List ℚ :=
  objs.filterMap (fun o => (o.best ray m).map Surfel.t)

/-- Minimum of the list elements strictly below `cap`, `none` if there is
none: the value every nearest-hit scan computes. -/
def minBelow : List ℚ → ℚ → Option ℚ
  | [], _ => none
  | t :: rest, cap =>
    if t < cap then
      match minBelow rest cap with
      | none => some t
      | some u => some (Min.min t u)
    else minBelow rest cap

theorem minBelow_none_iff (cap : ℚ) : ∀ l : List ℚ,
    minBelow l cap = none ↔ ∀ t ∈ l, ¬ t < cap := by
  intro l
  induction l with
  | nil => simp [minBelow]
  | cons t rest ih =>
    by_cases ht : t < cap
    · cases hm : minBelow rest cap <;> simp [minBelow, ht, hm]
    · simp [minBelow, ht, ih]
      exact fun _ => not_lt.mp ht

theorem minBelow_some (cap : ℚ) : ∀ (l : List ℚ) (u : ℚ), minBelow l cap = some u →
    u ∈ l ∧ u < cap ∧ ∀ t ∈ l, t < cap → u ≤ t := by
  intro l
  induction l with
  | nil => intro u h; cases h
  | cons t rest ih =>
    intro u h
    by_cases ht : t < cap
    · rw [minBelow, if_pos ht] at h
      cases hm : minBelow rest cap with
      | none =>
        rw [hm, Option.some.injEq] at h
        subst h
        refine ⟨by simp, ht, ?_⟩
        intro x hx hxc
        rcases List.mem_cons.mp hx with rfl | hxr
        · exact le_rfl
        · exact absurd hxc ((minBelow_none_iff cap rest).mp hm x hxr)
      | some v =>
        rw [hm, Option.some.injEq] at h
        subst h
        obtain ⟨hv1, hv2, hv3⟩ := ih v hm
        constructor
        · rcases le_total t v with hc | hc
          · simp [min_eq_left hc]
          · simp [min_eq_right hc, hv1]
        refine ⟨lt_of_le_of_lt (min_le_left _ _) ht, ?_⟩
        intro x hx hxc
        rcases List.mem_cons.mp hx with rfl | hxr
        · exact min_le_left _ _
        · exact le_trans (min_le_right _ _) (hv3 x hxr hxc)
    · rw [minBelow, if_neg ht] at h
      obtain ⟨hv1, hv2, hv3⟩ := ih u h
      refine ⟨by simp [hv1], hv2, ?_⟩
      intro x hx hxc
      rcases List.mem_cons.mp hx with rfl | hxr
      · exact absurd hxc ht
      · exact hv3 x hxr hxc

theorem minBelow_some_of (cap : ℚ) : ∀ (l : List ℚ) (u : ℚ), u ∈ l → u < cap →
    (∀ t ∈ l, t < cap → u ≤ t) → minBelow l cap = some u := by
  intro l
  induction l with
  | nil => intro u hu; cases hu
  | cons t rest ih =>
    intro u hu huc hmin
    by_cases ht : t < cap
    · rw [minBelow, if_pos ht]
      cases hm : minBelow rest cap with
      | none =>
        rcases List.mem_cons.mp hu with rfl | hur
        · rfl
        · exact absurd huc ((minBelow_none_iff cap rest).mp hm u hur)
      | some v =>
        obtain ⟨hv1, hv2, hv3⟩ := minBelow_some cap rest v hm
        rw [Option.some.injEq]
        have hut : u ≤ t := hmin t (by simp) ht
        have huv : u ≤ v := hmin v (by simp [hv1]) hv2
        refine le_antisymm ?_ (le_min hut huv)
        rcases List.mem_cons.mp hu with rfl | hur
        · exact min_le_left _ _
        · exact le_trans (min_le_right _ _) (hv3 u hur huc)
    · rw [minBelow, if_neg ht]
      rcases List.mem_cons.mp hu with rfl | hur
      · exact absurd huc ht
      · exact ih u hur huc (fun x hx hxc => hmin x (by simp [hx]) hxc)

theorem minBelow_perm (cap : ℚ) {l l' : List ℚ} (hp : l.Perm l') :
    minBelow l cap = minBelow l' cap := by
  cases h : minBelow l cap with
  | none =>
    symm
    rw [minBelow_none_iff]
    intro t ht
    exact (minBelow_none_iff cap l).mp h t (hp.mem_iff.mpr ht)
  | some u =>
    obtain ⟨h1, h2, h3⟩ := minBelow_some cap l u h
    symm
    exact minBelow_some_of cap l' u (hp.mem_iff.mp h1) h2
      (fun t ht htc => h3 t (hp.mem_iff.mpr ht) htc)

/-- Combination of two optional minima (the node-merge of the BVH). -/
def optionMin : Option ℚ → Option ℚ → Option ℚ
  | some x, some y => some (Min.min x y)
  | some x, none => some x
  | none, b => b

theorem minBelow_append (cap : ℚ) : ∀ l1 l2 : List ℚ,
    minBelow (l1 ++ l2) cap = optionMin (minBelow l1 cap) (minBelow l2 cap) := by
  intro l1 l2
  induction l1 with
  | nil => simp [minBelow, optionMin]
  | cons t rest ih =>
    by_cases ht : t < cap
    · rw [List.cons_append, minBelow, if_pos ht, ih, minBelow, if_pos ht]
      cases hr : minBelow rest cap <;> cases h2 : minBelow l2 cap <;>
        simp [optionMin, min_assoc]
    · rw [List.cons_append, minBelow, if_neg ht, ih, minBelow, if_neg ht]
/-- Narrowing `cap` to an accepted candidate `a` and keeping `a` as current
best computes exactly the minimum below the original `cap`. -/
theorem minBelow_cons_lt (l : List ℚ) (a cap : ℚ) (ha : a < cap) :
    minBelow (a :: l) cap =
      match minBelow l a with
      | some u => some u
      | none => some a := by
  cases hm : minBelow l a with
  | none =>
    refine minBelow_some_of cap _ a (by simp) ha ?_
    intro x hx hxc
    rcases List.mem_cons.mp hx with rfl | hxr
    · exact le_rfl
    · exact not_lt.mp ((minBelow_none_iff a l).mp hm x hxr)
  | some u =>
    obtain ⟨h1, h2, h3⟩ := minBelow_some a l u hm
    refine minBelow_some_of cap _ u (by simp [h1]) (lt_trans h2 ha) ?_
    intro x hx hxc
    rcases List.mem_cons.mp hx with rfl | hxr
    · exact le_of_lt h2
    · by_cases hxa : x < a
      · exact h3 x hxr hxa
      · exact le_trans (le_of_lt h2) (not_lt.mp hxa)

/-- The nearest-hit scan (`trace_ray` / BVH leaf loop) returns the object
hit with minimal candidate `t` strictly below the original `range.max`
(falling back to the incoming accumulator when none qualifies). -/
theorem scan_minBelow (ray : Ray) : ∀ (objs : List AObj) (rmin cap : ℚ) (acc : Option Surfel),
    Option.map Surfel.t (scanObjects ray objs ⟨rmin, cap⟩ acc) =
      match minBelow (candTs objs ray rmin) cap with
      | some u => some u
      | none => Option.map Surfel.t acc := by
  intro objs
  induction objs with
  | nil =>
    intro rmin cap acc
    simp [scanObjects, candTs, minBelow]
  | cons o rest ih =>
    intro rmin cap acc
    cases hb : o.best ray rmin with
    | none =>
      simp only [scanObjects, AObj.intersect, hb, candTs, List.filterMap_cons,
        Option.map_none']
      exact ih rmin cap acc
    | some s =>
      by_cases hst : s.t < cap
      · simp only [scanObjects, AObj.intersect, hb, if_pos hst]
        rw [ih rmin s.t (some s)]
        simp only [candTs, List.filterMap_cons, hb, Option.map_some']
        rw [minBelow_cons_lt _ s.t cap hst]
        cases hm : minBelow (rest.filterMap (fun o => (o.best ray rmin).map Surfel.t)) s.t <;>
          simp [hm]
      · simp only [scanObjects, AObj.intersect, hb, if_neg hst, candTs, List.filterMap_cons,
          Option.map_some']
        rw [show (minBelow (s.t :: rest.filterMap (fun o => (o.best ray rmin).map Surfel.t)) cap) =
          minBelow (rest.filterMap (fun o => (o.best ray rmin).map Surfel.t)) cap from by
            rw [minBelow, if_neg hst]]
        exact ih rmin cap acc
/-- The multiset of objects stored in a BVH tree. -/
def Bvh.toList : Bvh → List AObj
  | .leaf objs _ => objs
  | .node l r _ => l.toList ++ r.toList

/-- Structural invariant established by `Bvh::new`: every leaf bbox is the
merged bbox of its objects, every node bbox the merge of its children's. -/
def Bvh.wf : Bvh → Prop
  | .leaf objs bbox => bbox = compute_bbox objs
  | .node l r bbox => bbox = l.bbox.merge r.bbox ∧ l.wf ∧ r.wf

/-- A bounded object as the BVH requires: a properly ordered bbox that its
own slab test certifies for every hit the object reports. -/
def goodObj (o : AObj) : Prop :=
  properBox o.bbox ∧
  ∀ (ray : Ray) (range : Range) (s : Surfel),
    o.intersect ray range = some s → (Aabb.intersect o.bbox ray range).isSome

theorem bvh_subset : ∀ t : Bvh, t.wf → ∀ o ∈ t.toList, subsetBox o.bbox t.bbox := by
  intro t
  induction t with
  | leaf objs bbox =>
    intro hwf o ho
    rw [show Bvh.bbox (.leaf objs bbox) = bbox from rfl, hwf]
    exact subset_compute_bbox ho
  | node l r bbox ihl ihr =>
    intro hwf o ho
    obtain ⟨hb, hl, hr⟩ := hwf
    rw [show Bvh.bbox (.node l r bbox) = bbox from rfl, hb]
    rcases List.mem_append.mp ho with hol | hor
    · exact subsetBox_trans (ihl hl o hol) (subsetBox_merge_left _ _)
    · exact subsetBox_trans (ihr hr o hor) (subsetBox_merge_right _ _)

/-- Pruning soundness: a hit by any object stored in the tree forces the
tree's own bbox test to pass. -/
theorem bvh_prune (t : Bvh) (hwf : t.wf) (hgood : ∀ o ∈ t.toList, goodObj o)
    (ray : Ray) (range : Range) (o : AObj) (s : Surfel) (ho : o ∈ t.toList)
    (h : o.intersect ray range = some s) : (Aabb.intersect t.bbox ray range).isSome :=
  aabb_intersect_mono _ _ ray range (bvh_subset t hwf o ho) (hgood o ho).1
    ((hgood o ho).2 ray range s h)

theorem minBelow_candTs_none_of_miss (t : Bvh) (hwf : t.wf)
    (hgood : ∀ o ∈ t.toList, goodObj o) (ray : Ray) (range : Range)
    (hbb : ¬ (Aabb.intersect t.bbox ray range).isSome) :
    minBelow (candTs t.toList ray range.min) range.max = none := by
  cases hm : minBelow (candTs t.toList ray range.min) range.max with
  | none => rfl
  | some u =>
    exfalso
    obtain ⟨h1, h2, _⟩ := minBelow_some _ _ _ hm
    obtain ⟨o, ho, heq⟩ := List.mem_filterMap.mp h1
    cases hbo : o.best ray range.min with
    | none => rw [hbo] at heq; cases heq
    | some s =>
      rw [hbo, Option.map_some', Option.some.injEq] at heq
      refine hbb (bvh_prune t hwf hgood ray range o s ho ?_)
      simp only [AObj.intersect, hbo]
      rw [if_pos (by rw [heq]; exact h2)]

/-- The BVH traversal computes the minimal candidate `t` of the stored
objects strictly inside the range, pruning soundly by merged bboxes. -/
theorem bvh_intersect_minBelow : ∀ t : Bvh, t.wf → (∀ o ∈ t.toList, goodObj o) →
    ∀ (ray : Ray) (range : Range),
    Option.map Surfel.t (t.intersect ray range) =
      minBelow (candTs t.toList ray range.min) range.max := by
  intro t
  induction t with
  | leaf objs bbox =>
    intro hwf hgood ray range
    simp only [Bvh.intersect, Bvh.toList]
    by_cases hbb : (Aabb.intersect bbox ray range).isSome
    · rw [if_pos hbb]
      obtain ⟨rmin, rmax⟩ := range
      rw [scan_minBelow ray objs rmin rmax none]
      cases hm : minBelow (candTs objs ray rmin) rmax <;> simp [hm]
    · rw [if_neg hbb]
      exact (minBelow_candTs_none_of_miss _ hwf hgood ray range hbb).symm
  | node l r bbox ihl ihr =>
    intro hwf hgood ray range
    obtain ⟨hb, hl, hr⟩ := hwf
    have hgl : ∀ o ∈ l.toList, goodObj o := fun o ho => hgood o (by
      show o ∈ Bvh.toList (.node l r bbox)
      simp [Bvh.toList, ho])
    have hgr : ∀ o ∈ r.toList, goodObj o := fun o ho => hgood o (by
      show o ∈ Bvh.toList (.node l r bbox)
      simp [Bvh.toList, ho])
    simp only [Bvh.intersect]
    by_cases hbb : (Aabb.intersect bbox ray range).isSome
    · rw [if_pos hbb]
      have hcomb : Option.map Surfel.t
          (match l.intersect ray range, r.intersect ray range with
           | some l_surf, some r_surf =>
             if l_surf.t ≤ r_surf.t then some l_surf else some r_surf
           | some surf, none => some surf
           | none, some surf => some surf
           | none, none => none) =
          optionMin (Option.map Surfel.t (l.intersect ray range))
            (Option.map Surfel.t (r.intersect ray range)) := by
        cases hL : l.intersect ray range with
        | none =>
          cases hR : r.intersect ray range <;> simp [optionMin]
        | some ls =>
          cases hR : r.intersect ray range with
          | none => simp [optionMin]
          | some rs =>
            by_cases hle : ls.t ≤ rs.t
            · simp [hle, optionMin, min_eq_left hle]
            · simp [hle, optionMin, min_eq_right (le_of_not_le hle)]
      rw [hcomb, ihl hl hgl ray range, ihr hr hgr ray range]
      simp only [Bvh.toList, candTs, List.filterMap_append, minBelow_append]
    · rw [if_neg hbb]
      exact (minBelow_candTs_none_of_miss (.node l r bbox) ⟨hb, hl, hr⟩ hgood ray
        range hbb).symm
theorem bvh_new_wf : ∀ (n : ℕ) (objs : List AObj) (axis : ℕ), objs.length = n →
    (Bvh.new objs axis).wf := by
  intro n
  induction n using Nat.strong_induction_on with
  | _ n ih =>
    intro objs axis hlen
    rw [Bvh.new]
    by_cases hle : (objs.mergeSort (centroid_le axis)).length ≤ 1
    · rw [if_pos hle]
      rfl
    · rw [if_neg hle]
      have hls : (objs.mergeSort (centroid_le axis)).length = n := by
        rw [List.length_mergeSort]
        exact hlen
      refine ⟨rfl, ?_, ?_⟩
      · refine ih ((objs.mergeSort (centroid_le axis)).take
          ((objs.mergeSort (centroid_le axis)).length / 2)).length (by
            simp only [List.length_take]
            omega) _ _ rfl
      · refine ih ((objs.mergeSort (centroid_le axis)).drop
          ((objs.mergeSort (centroid_le axis)).length / 2)).length (by
            simp only [List.length_drop]
            omega) _ _ rfl

theorem bvh_new_toList_perm : ∀ (n : ℕ) (objs : List AObj) (axis : ℕ), objs.length = n →
    ((Bvh.new objs axis).toList).Perm objs := by
  intro n
  induction n using Nat.strong_induction_on with
  | _ n ih =>
    intro objs axis hlen
    rw [Bvh.new]
    by_cases hle : (objs.mergeSort (centroid_le axis)).length ≤ 1
    · rw [if_pos hle]
      exact List.mergeSort_perm objs (centroid_le axis)
    · rw [if_neg hle]
      have hls : (objs.mergeSort (centroid_le axis)).length = n := by
        rw [List.length_mergeSort]
        exact hlen
      have hpl := ih ((objs.mergeSort (centroid_le axis)).take
        ((objs.mergeSort (centroid_le axis)).length / 2)).length (by
          simp only [List.length_take]
          omega) _ ((axis + 1) % 3) rfl
      have hpr := ih ((objs.mergeSort (centroid_le axis)).drop
        ((objs.mergeSort (centroid_le axis)).length / 2)).length (by
          simp only [List.length_drop]
          omega) _ ((axis + 1) % 3) rfl
      show (Bvh.toList (.node _ _ _)).Perm objs
      simp only [Bvh.toList]
      refine ((hpl.append hpr).trans ?_)
      rw [List.take_append_drop]
      exact List.mergeSort_perm objs (centroid_le axis)
/-- Evaluation of `ratSqrt` at `2 ^ (-58)`, the discriminant of the
near-parallel sphere hit in the C1 counterexample. -/
theorem ratSqrt_small : ratSqrt ((1 : ℚ) / 288230376151711744) = 1 / 536870912 := by
  have hb : (0 : ℤ) < 288230376151711744 := by norm_num
  have hc : Nat.Coprime (Int.natAbs 1) (Int.natAbs 288230376151711744) := by simp
  have hnum : ((1 : ℚ) / 288230376151711744).num = 1 := by
    have h := Rat.num_div_eq_of_coprime hb hc
    push_cast at h
    exact h
  have hden : (((1 : ℚ) / 288230376151711744).den : ℤ) = 288230376151711744 := by
    have h := Rat.den_div_eq_of_coprime hb hc
    push_cast at h
    exact h
  rw [ratSqrt_eq _ 1 536870912 ?_ ?_]
  · norm_num
  · rw [hnum]
    norm_num
  · have h2 : ((1 : ℚ) / 288230376151711744).den = 288230376151711744 := by exact_mod_cast hden
    rw [h2]

/-- `Sphere.toAObj` refines `Sphere::intersect`: deferring the upper range
bound to `AObj.intersect`'s filter reproduces the source's `in_range`
test exactly. -/
theorem sphere_toAObj_intersect (s : Sphere) (ray : Ray) (range : Range) :
    AObj.intersect (Sphere.toAObj s) ray range = s.intersect ray range := by
  unfold AObj.intersect Sphere.intersect
  simp only [Sphere.toAObj]
  by_cases hd : s.disc ray < 0
  · simp [hd]
  · simp only [if_neg hd]
    generalize (if s.t1 ray < 0 then s.t2 ray else s.t1 ray) = t
    by_cases htn : t < 0
    · simp [htn]
    · simp only [if_neg htn]
      by_cases hgt : t > range.min
      · by_cases hlt : t < range.max
        · simp [hgt, hlt, in_range]
        · simp [hgt, hlt, in_range]
      · simp [hgt, in_range]

/-- The candidate computed by `Sphere.toAObj` when the discriminant is
nonnegative and the smaller root is nonnegative: the smaller root,
filtered against the lower range bound. -/
theorem sphere_toAObj_best (s : Sphere) (ray : Ray) (m : ℚ)
    (h : 0 ≤ s.disc ray) (h1 : 0 ≤ s.t1 ray) :
    (Sphere.toAObj s).best ray m =
      if s.t1 ray > m then
        some { t := s.t1 ray, hit_point := ray.point_at (s.t1 ray),
               normal := s.normal_at (ray.point_at (s.t1 ray)),
               material_id := s.material_id, n_offset := 0 }
      else none := by
  simp only [Sphere.toAObj]
  rw [if_neg (not_lt.mpr h), if_neg (not_lt.mpr h1), if_neg (not_lt.mpr h1)]

/-- Pointwise equation for `AObj.intersect` when the candidate is known
(used to evaluate concrete instances without unfolding at ground
arguments). -/
theorem AObj.intersect_best (o : AObj) (ray : Ray) (mn mx : ℚ) (s : Surfel)
    (h : o.best ray mn = some s) :
    AObj.intersect o ray ⟨mn, mx⟩ = if s.t < mx then some s else none := by
  have e : AObj.intersect o ray ⟨mn, mx⟩ =
      match o.best ray mn with
      | some u => if u.t < mx then some u else none
      | none => none := rfl
  rw [e, h]

/-- One step of the nearest-hit scan at a known hit. -/
theorem scanObjects_cons_hit (ray : Ray) (o : AObj) (rest : List AObj) (range : Range)
    (acc : Option Surfel) (s : Surfel) (h : AObj.intersect o ray range = some s) :
    scanObjects ray (o :: rest) range acc =
      scanObjects ray rest { range with max := s.t } (some s) := by
  have e : scanObjects ray (o :: rest) range acc =
      match AObj.intersect o ray range with
      | some u => scanObjects ray rest { range with max := u.t } (some u)
      | none => scanObjects ray rest range acc := rfl
  rw [e, h]

theorem scanObjects_nil (ray : Ray) (range : Range) (acc : Option Surfel) :
    scanObjects ray [] range acc = acc := rfl

/-- Pointwise equation for `Aabb.slab3` when all three axes pass. -/
theorem slab3_eval (b : Aabb) (ray : Ray) (mn mx : ℚ) (p q r : ℚ × ℚ)
    (h0 : Aabb.slabAxis b ray 0 mn mx = some p)
    (h1 : Aabb.slabAxis b ray 1 p.1 p.2 = some q)
    (h2 : Aabb.slabAxis b ray 2 q.1 q.2 = some r) :
    Aabb.slab3 b ray ⟨mn, mx⟩ = some r := by
  unfold Aabb.slab3
  simp only [h0, Option.some_bind, h1, h2]

/-- Pointwise equation for `Aabb.intersect` at a known slab result. -/
theorem aabb_intersect_eval (b : Aabb) (ray : Ray) (range : Range) (tn tf : ℚ)
    (h : Aabb.slab3 b ray range = some (tn, tf)) :
    Aabb.intersect b ray range = if tn < 0 then some tf else some tn := by
  unfold Aabb.intersect
  rw [h]

/-- C1 counterexample: the unamended claim fails on the program's own
objects. A unit sphere at the origin, and the ray from `(5,0,0)` with
direction `(-2 ^ (-30), 0, 0)` (all values exactly representable in
`f32`): `Sphere::intersect` hits at `t = 2 ^ 32` inside the primary range
`(0.025, f32::MAX)`, but `nearly_zero` treats the direction as parallel
(`2 ^ (-30) ≤ 2 · 2 ^ (-23)`) and the origin `x = 5` lies outside the
bbox x-slab `[-1, 1]`, so the BVH over this single sphere prunes at its
bbox and returns `none` while the brute-force linear scan returns the
hit. -/
theorem bvh_misses_linear_scan_hit :
    (Bvh.new [Sphere.toAObj ⟨⟨0, 0, 0⟩, 1, (0 : MaterialID)⟩] 0).intersect
        ⟨⟨5, 0, 0⟩, ⟨-(1 / 2 ^ 30), 0, 0⟩, 0⟩ ⟨0.025, fMAX⟩ = none ∧
    Option.map Surfel.t
      (linear_scan [Sphere.toAObj ⟨⟨0, 0, 0⟩, 1, (0 : MaterialID)⟩]
        ⟨⟨5, 0, 0⟩, ⟨-(1 / 2 ^ 30), 0, 0⟩, 0⟩ ⟨0.025, fMAX⟩) = some (2 ^ 32) := by
  constructor
  · have hbb : compute_bbox [Sphere.toAObj ⟨⟨0, 0, 0⟩, 1, (0 : MaterialID)⟩]
        = ⟨⟨-1, -1, -1⟩, ⟨1, 1, 1⟩⟩ := by
      simp only [compute_bbox, List.foldl_cons, List.foldl_nil, Sphere.toAObj, Sphere.bbox,
        Aabb.merge, Aabb.maxmin, Vec3.fill, Vec3.subs_eval, Vec3.adds_eval]
      norm_num [fMAX, Aabb.mk.injEq, Vec3.mk.injEq, min_eq_right, max_eq_right]
    have hbox : Aabb.intersect (compute_bbox [Sphere.toAObj ⟨⟨0, 0, 0⟩, 1, (0 : MaterialID)⟩])
        ⟨⟨5, 0, 0⟩, ⟨-(1 / 2 ^ 30), 0, 0⟩, 0⟩ ⟨0.025, fMAX⟩ = none := by
      rw [hbb]
      have haxis : Aabb.slabAxis ⟨⟨-1, -1, -1⟩, ⟨1, 1, 1⟩⟩
          ⟨⟨5, 0, 0⟩, ⟨-(1 / 2 ^ 30), 0, 0⟩, 0⟩ 0 (0.025 : ℚ) fMAX = none := by
        apply slabAxis_parallel_outside
        · norm_num [nearly_zero, epsF32, Vec3.nth, abs_le]
        · norm_num [Vec3.nth]
      unfold Aabb.intersect Aabb.slab3
      rw [haxis]
      rfl
    rw [Bvh.new, if_pos (by simp)]
    simp only [List.mergeSort_singleton, Bvh.intersect]
    rw [hbox]
    rfl
  · have ht1 : Sphere.t1 ⟨⟨0, 0, 0⟩, 1, (0 : MaterialID)⟩
        ⟨⟨5, 0, 0⟩, ⟨-(1 / 2 ^ 30), 0, 0⟩, 0⟩ = 2 ^ 32 := by
      unfold Sphere.t1
      simp only [dot, sum, square, Vec3.mul_eval, Vec3.sub_eval]
      norm_num [ratSqrt_small]
    have hd : Sphere.disc ⟨⟨0, 0, 0⟩, 1, (0 : MaterialID)⟩
        ⟨⟨5, 0, 0⟩, ⟨-(1 / 2 ^ 30), 0, 0⟩, 0⟩ = 1 / 288230376151711744 := by
      unfold Sphere.disc
      simp only [dot, sum, square, Vec3.mul_eval, Vec3.sub_eval]
      norm_num
    have hbest : (Sphere.toAObj ⟨⟨0, 0, 0⟩, 1, (0 : MaterialID)⟩).best
        ⟨⟨5, 0, 0⟩, ⟨-(1 / 2 ^ 30), 0, 0⟩, 0⟩ (0.025 : ℚ) =
        some { t := 2 ^ 32,
               hit_point := Ray.point_at ⟨⟨5, 0, 0⟩, ⟨-(1 / 2 ^ 30), 0, 0⟩, 0⟩ (2 ^ 32),
               normal := Sphere.normal_at ⟨⟨0, 0, 0⟩, 1, (0 : MaterialID)⟩
                 (Ray.point_at ⟨⟨5, 0, 0⟩, ⟨-(1 / 2 ^ 30), 0, 0⟩, 0⟩ (2 ^ 32)),
               material_id := (0 : MaterialID), n_offset := 0 } := by
      rw [sphere_toAObj_best _ _ _ (by rw [hd]; norm_num) (by rw [ht1]; norm_num)]
      rw [ht1]
      rw [if_pos (by norm_num)]
    have hint : AObj.intersect (Sphere.toAObj ⟨⟨0, 0, 0⟩, 1, (0 : MaterialID)⟩)
        ⟨⟨5, 0, 0⟩, ⟨-(1 / 2 ^ 30), 0, 0⟩, 0⟩ ⟨0.025, fMAX⟩ =
        some { t := 2 ^ 32,
               hit_point := Ray.point_at ⟨⟨5, 0, 0⟩, ⟨-(1 / 2 ^ 30), 0, 0⟩, 0⟩ (2 ^ 32),
               normal := Sphere.normal_at ⟨⟨0, 0, 0⟩, 1, (0 : MaterialID)⟩
                 (Ray.point_at ⟨⟨5, 0, 0⟩, ⟨-(1 / 2 ^ 30), 0, 0⟩, 0⟩ (2 ^ 32)),
               material_id := (0 : MaterialID), n_offset := 0 } := by
      rw [AObj.intersect_best _ _ _ _ _ hbest]
      exact if_pos (by norm_num [fMAX])
    rw [linear_scan, scanObjects_cons_hit _ _ _ _ _ _ hint, scanObjects_nil]
    rfl

/-- C1 (amended): the claimed BVH/linear-scan equivalence holds exactly
for lists of objects whose proper bounding box certifies, under the slab
test, every hit the object reports (`goodObj`): then `Bvh.new` at axis 0
followed by `Bvh.intersect` returns `none` in exactly the same cases as
the brute-force scan over all objects with the same range, and otherwise
a surfel with the same `t` (exact equality in the `ℚ` model). The
unamended claim — every object list — is refuted by
`bvh_misses_linear_scan_hit`: the program's own spheres violate `goodObj`
because `nearly_zero` treats direction components up to `2 · 2 ^ (-23)`
as parallel, so the bbox slab test prunes a genuine distant sphere hit. -/
theorem bvh_intersect_eq_linear_scan (objs : List AObj)
    (hgood : ∀ o ∈ objs, goodObj o) (ray : Ray) (range : Range) :
    Option.map Surfel.t ((Bvh.new objs 0).intersect ray range) =
    Option.map Surfel.t (linear_scan objs ray range) := by
  have hperm := bvh_new_toList_perm objs.length objs 0 rfl
  have hwf := bvh_new_wf objs.length objs 0 rfl
  obtain ⟨rmin, rmax⟩ := range
  rw [bvh_intersect_minBelow _ hwf (fun o ho => hgood o (hperm.mem_iff.mp ho)) ray ⟨rmin, rmax⟩]
  rw [linear_scan, scan_minBelow ray objs rmin rmax none]
  have hcand : (candTs (Bvh.new objs 0).toList ray rmin).Perm (candTs objs ray rmin) :=
    hperm.filterMap _
  show minBelow (candTs (Bvh.new objs 0).toList ray rmin) rmax = _
  rw [minBelow_perm rmax hcand]
  cases hm : minBelow (candTs objs ray rmin) rmax <;> simp [hm]

/-- Witness for the amended C1: a bounded object that genuinely hits (at
`t = 1/2`, for the ray from the box's center along `+z`) and satisfies
`goodObj`; BVH and linear scan agree at that ray, both returning the
`t = 1/2` hit. -/
theorem bvh_intersect_eq_linear_scan_witness :
    (∀ o ∈ [(⟨⟨⟨-1, -1, -1⟩, ⟨1, 1, 1⟩⟩, ⟨0, 0, 0⟩, fun ray m =>
        if ray.origin = ⟨0, 0, 0⟩ ∧ ray.direction = ⟨0, 0, 1⟩ ∧ m = (0.025 : ℚ) then
          some ⟨1 / 2, ⟨0, 0, 1 / 2⟩, ⟨0, 0, -1⟩, (0 : MaterialID), 0⟩
        else none⟩ : AObj)], goodObj o) ∧
    Option.map Surfel.t
      ((Bvh.new [(⟨⟨⟨-1, -1, -1⟩, ⟨1, 1, 1⟩⟩, ⟨0, 0, 0⟩, fun ray m =>
        if ray.origin = ⟨0, 0, 0⟩ ∧ ray.direction = ⟨0, 0, 1⟩ ∧ m = (0.025 : ℚ) then
          some ⟨1 / 2, ⟨0, 0, 1 / 2⟩, ⟨0, 0, -1⟩, (0 : MaterialID), 0⟩
        else none⟩ : AObj)] 0).intersect ⟨⟨0, 0, 0⟩, ⟨0, 0, 1⟩, 0⟩ ⟨0.025, 100⟩) =
    Option.map Surfel.t
      (linear_scan [(⟨⟨⟨-1, -1, -1⟩, ⟨1, 1, 1⟩⟩, ⟨0, 0, 0⟩, fun ray m =>
        if ray.origin = ⟨0, 0, 0⟩ ∧ ray.direction = ⟨0, 0, 1⟩ ∧ m = (0.025 : ℚ) then
          some ⟨1 / 2, ⟨0, 0, 1 / 2⟩, ⟨0, 0, -1⟩, (0 : MaterialID), 0⟩
        else none⟩ : AObj)] ⟨⟨0, 0, 0⟩, ⟨0, 0, 1⟩, 0⟩ ⟨0.025, 100⟩) ∧
    Option.map Surfel.t
      (linear_scan [(⟨⟨⟨-1, -1, -1⟩, ⟨1, 1, 1⟩⟩, ⟨0, 0, 0⟩, fun ray m =>
        if ray.origin = ⟨0, 0, 0⟩ ∧ ray.direction = ⟨0, 0, 1⟩ ∧ m = (0.025 : ℚ) then
          some ⟨1 / 2, ⟨0, 0, 1 / 2⟩, ⟨0, 0, -1⟩, (0 : MaterialID), 0⟩
        else none⟩ : AObj)] ⟨⟨0, 0, 0⟩, ⟨0, 0, 1⟩, 0⟩ ⟨0.025, 100⟩) = some (1 / 2) := by
  have hgood : ∀ o ∈ [(⟨⟨⟨-1, -1, -1⟩, ⟨1, 1, 1⟩⟩, ⟨0, 0, 0⟩, fun ray m =>
      if ray.origin = ⟨0, 0, 0⟩ ∧ ray.direction = ⟨0, 0, 1⟩ ∧ m = (0.025 : ℚ) then
        some ⟨1 / 2, ⟨0, 0, 1 / 2⟩, ⟨0, 0, -1⟩, (0 : MaterialID), 0⟩
      else none⟩ : AObj)], goodObj o := by
    intro o ho
    rcases List.mem_singleton.mp ho with rfl
    constructor
    · intro i hi
      interval_cases i <;> norm_num [Vec3.nth]
    · intro ray rng s h
      simp only [AObj.intersect] at h
      rcases ray with ⟨ro, rd, rdep⟩
      rcases rng with ⟨rmin, rmax⟩
      simp only at h
      by_cases hc : ro = (⟨0, 0, 0⟩ : Vec3) ∧ rd = (⟨0, 0, 1⟩ : Vec3) ∧ rmin = (0.025 : ℚ)
      · obtain ⟨hc1, hc2, hc3⟩ := hc
        subst hc1; subst hc2; subst hc3
        rw [if_pos ⟨rfl, rfl, rfl⟩] at h
        simp only [] at h
        by_cases hmax : (1 / 2 : ℚ) < rmax
        · have h0 : Aabb.slabAxis ⟨⟨-1, -1, -1⟩, ⟨1, 1, 1⟩⟩ ⟨⟨0, 0, 0⟩, ⟨0, 0, 1⟩, rdep⟩ 0
              (0.025 : ℚ) rmax = some (0.025, rmax) := by
            unfold Aabb.slabAxis
            rw [if_pos (by norm_num [nearly_zero, epsF32, Vec3.nth])]
            rw [if_neg (by norm_num [Vec3.nth])]
          have h1 : Aabb.slabAxis ⟨⟨-1, -1, -1⟩, ⟨1, 1, 1⟩⟩ ⟨⟨0, 0, 0⟩, ⟨0, 0, 1⟩, rdep⟩ 1
              (0.025 : ℚ) rmax = some (0.025, rmax) := by
            unfold Aabb.slabAxis
            rw [if_pos (by norm_num [nearly_zero, epsF32, Vec3.nth])]
            rw [if_neg (by norm_num [Vec3.nth])]
          have h2 : Aabb.slabAxis ⟨⟨-1, -1, -1⟩, ⟨1, 1, 1⟩⟩ ⟨⟨0, 0, 0⟩, ⟨0, 0, 1⟩, rdep⟩ 2
              (0.025 : ℚ) rmax = some (0.025, Min.min 1 rmax) := by
            unfold Aabb.slabAxis
            rw [if_neg (by norm_num [nearly_zero, epsF32, Vec3.nth, abs_le])]
            simp only [Vec3.nth]
            norm_num
            constructor
            · linarith
            · intro h'
              linarith
          have hs3 : Aabb.slab3 ⟨⟨-1, -1, -1⟩, ⟨1, 1, 1⟩⟩ ⟨⟨0, 0, 0⟩, ⟨0, 0, 1⟩, rdep⟩
              ⟨0.025, rmax⟩ = some (0.025, Min.min 1 rmax) :=
            slab3_eval _ _ _ _ (0.025, rmax) (0.025, rmax) (0.025, Min.min 1 rmax) h0 h1 h2
          rw [aabb_intersect_eval _ _ _ _ _ hs3]
          rw [if_neg (by norm_num)]
          rfl
        · rw [if_neg (by simpa using hmax)] at h
          cases h
      · rw [if_neg hc] at h
        cases h
  refine ⟨hgood, bvh_intersect_eq_linear_scan _ hgood _ _, ?_⟩
  have hint : AObj.intersect (⟨⟨⟨-1, -1, -1⟩, ⟨1, 1, 1⟩⟩, ⟨0, 0, 0⟩, fun ray m =>
      if ray.origin = ⟨0, 0, 0⟩ ∧ ray.direction = ⟨0, 0, 1⟩ ∧ m = (0.025 : ℚ) then
        some ⟨1 / 2, ⟨0, 0, 1 / 2⟩, ⟨0, 0, -1⟩, (0 : MaterialID), 0⟩
      else none⟩ : AObj) ⟨⟨0, 0, 0⟩, ⟨0, 0, 1⟩, 0⟩ ⟨0.025, 100⟩ =
      some ⟨1 / 2, ⟨0, 0, 1 / 2⟩, ⟨0, 0, -1⟩, (0 : MaterialID), 0⟩ := by
    have hb : (⟨⟨⟨-1, -1, -1⟩, ⟨1, 1, 1⟩⟩, ⟨0, 0, 0⟩, fun ray m =>
        if ray.origin = ⟨0, 0, 0⟩ ∧ ray.direction = ⟨0, 0, 1⟩ ∧ m = (0.025 : ℚ) then
          some ⟨1 / 2, ⟨0, 0, 1 / 2⟩, ⟨0, 0, -1⟩, (0 : MaterialID), 0⟩
        else none⟩ : AObj).best ⟨⟨0, 0, 0⟩, ⟨0, 0, 1⟩, 0⟩ (0.025 : ℚ) =
        some ⟨1 / 2, ⟨0, 0, 1 / 2⟩, ⟨0, 0, -1⟩, (0 : MaterialID), 0⟩ :=
      if_pos ⟨rfl, rfl, rfl⟩
    rw [AObj.intersect_best _ _ _ _ _ hb]
    exact if_pos (by norm_num)
  rw [linear_scan, scanObjects_cons_hit _ _ _ _ _ _ hint, scanObjects_nil]
  rfl
